import Mathlib

/-!
Verification development for the HackRx document question-answering pipeline.

The Python sources are shallowly embedded here: strings become `List Char`,
Python integers become `Int` (or `Nat` where the source value is provably
non-negative), float arithmetic is idealised as exact real arithmetic over
`ℝ`, and the unbounded `while` loop of the chunker becomes a fuel-indexed
recursion (`none` = the loop has not finished within the given fuel).
External effects (the Gemini generation call, sleeping) are modelled by an
oracle parameter `Nat → Option (List Char)` giving each attempt's outcome,
and by returning the list of sleep durations the code would have performed.
-/

namespace HackRx

set_option maxRecDepth 200000

/-- Strings are modelled as lists of characters. -/
abbrev Str := List Char

/-! ## Python string primitives -/

/-- Python whitespace for `str.strip`, `str.split` and the regex class »\s«:
space, tab, newline, carriage return, vertical tab, form feed (ASCII model). -/
def pyIsSpace (c : Char) : Bool :=
  c = ' ' || c = '\t' || c = '\n' || c = '\x0d' || c = Char.ofNat 11 || c = Char.ofNat 12

/-- Regex class »\w« (ASCII model): letters, digits, underscore. -/
def isWordChar (c : Char) : Bool := c.isAlphanum || c = '_'

/-- `str.strip()`: drop leading and trailing whitespace. -/
def pyStrip (l : Str) : Str :=
  ((l.dropWhile pyIsSpace).reverse.dropWhile pyIsSpace).reverse

/-- `str.lower()` (ASCII model): lowercase every character. -/
def pyLower (l : Str) : Str := l.map Char.toLower

/-- Whether `pat` occurs at the start of `l` (helper for substring search). -/
def isPrefOf : Str → Str → Bool
  | [], _ => true
  | _ :: _, [] => false
  | a :: as, b :: bs => a = b && isPrefOf as bs

/-- Python `str.find(pat)` restricted to found-or-not: index of the first
occurrence of `pat` in `l`, if any.  The empty pattern is found at 0. -/
def findSub (pat : Str) : Str → Option Nat
  | [] => if pat = [] then some 0 else none
  | c :: rest =>
    if isPrefOf pat (c :: rest) then some 0
    else (findSub pat rest).map (· + 1)

/-- Python `pat in l` (substring containment). -/
def containsSub (l pat : Str) : Bool := (findSub pat l).isSome

/-- `re.sub(r'\s+', ' ', text)`: each maximal whitespace run becomes one space. -/
def collapseWs (l : Str) : Str :=
  l.foldr
    (fun c acc =>
      if pyIsSpace c then
        match acc with
        | ' ' :: _ => acc
        | _ => ' ' :: acc
      else c :: acc)
    []

/-- The punctuation kept by `clean_text`'s allow-list regex. -/
def allowedPunct : Str := ['.', ',', ';', ':', '!', '?', '-', '(', ')', '[', ']', '{', '}']

/-- A character surviving `re.sub(r'[^\w\s...]', '', text)`. -/
def isAllowedChar (c : Char) : Bool :=
  isWordChar c || pyIsSpace c || allowedPunct.contains c

/-- `utils.clean_text`: collapse whitespace runs, strip characters outside the
allow-list, then strip the ends. -/
def clean_text (text : Str) : Str :=
  pyStrip ((collapseWs text).filter isAllowedChar)

/-! ## The chunker (`utils.split_text_into_chunks`)

Tokens are opaque ids (`Nat`), as produced by the external tiktoken
`cl100k_base` encoder; the encoder and decoder are parameters of the
embedding.  The `while start < len(tokens)` loop is given explicit fuel:
`none` means the loop has not returned within `fuel` iterations, so a result
that is `none` for every fuel is a non-terminating run. -/

/-- Python list slicing `l[a:b]` with (possibly negative) `Int` indices. -/
def pySlice (l : List Nat) (a b : Int) : List Nat :=
  let n : Int := l.length
  let lo := (if a < 0 then n + a else a).toNat.min l.length
  let hi := (if b < 0 then n + b else b).toNat.min l.length
  (l.drop lo).take (hi - lo)

/-- The body of `split_text_into_chunks`' while loop (lines 42–61 of
`utils.py`), one constructor-recursive step per unit of fuel.  `decode` is
tiktoken's decoder.  The accumulated `acc` are the chunks appended so far. -/
def splitLoop (decode : List Nat → Str) (chunkSize overlap : Int) :
    Nat → Int → List Nat → List Str → Option (List Str)
  | 0, _, _, _ => none
  | fuel + 1, start, tokens, acc =>
    if start < (tokens.length : Int) then
      let e := start + chunkSize
      let chunkText := clean_text (decode (pySlice tokens start e))
      let acc' := if pyStrip chunkText ≠ [] then acc ++ [chunkText] else acc
      let start' := e - overlap
      if (tokens.length : Int) ≤ start' then some acc'
      else splitLoop decode chunkSize overlap fuel start' tokens acc'
    else some acc

/-- `utils.split_text_into_chunks`, parametric in the external tokenizer
(`encode`/`decode` for tiktoken `cl100k_base`). -/
def split_text_into_chunks (encode : Str → List Nat) (decode : List Nat → Str)
    (text : Str) (chunkSize overlap : Int) (fuel : Nat) : Option (List Str) :=
  splitLoop decode chunkSize overlap fuel 0 (encode (clean_text text)) []

/-- With a non-positive step (`chunk_size ≤ overlap`), `start` never
increases, so once inside the loop it never exits: no fuel suffices. -/
theorem splitLoop_none_of_step_nonpos (decode : List Nat → Str)
    (chunkSize overlap : Int) (h : chunkSize ≤ overlap) (tokens : List Nat)
    (ht : tokens ≠ []) :
    ∀ fuel (start : Int) acc, start ≤ 0 →
      splitLoop decode chunkSize overlap fuel start tokens acc = none := by
  intro fuel
  induction fuel with
  | zero => intro start acc _; rfl
  | succ n ih =>
    intro start acc hs
    have hlen : (0 : Int) < (tokens.length : Int) := by
      have : tokens.length ≠ 0 := by
        simpa [List.length_eq_zero] using ht
      omega
    have hlt : start < (tokens.length : Int) := lt_of_le_of_lt hs hlen
    have hstep : start + chunkSize - overlap ≤ 0 := by omega
    have hnb : ¬ ((tokens.length : Int) ≤ start + chunkSize - overlap) := by omega
    simp only [splitLoop, if_pos hlt, if_neg hnb]
    exact ih _ _ hstep

/-- With a positive step the loop advances by at least one token position per
iteration, so `tokens.length + 1` units of fuel always suffice. -/
theorem splitLoop_isSome_of_step_pos (decode : List Nat → Str)
    (chunkSize overlap : Int) (h : overlap < chunkSize) (tokens : List Nat) :
    ∀ (fuel : Nat) (start : Int) acc,
      (tokens.length : Int) - start < (fuel : Int) → 1 ≤ fuel →
      (splitLoop decode chunkSize overlap fuel start tokens acc).isSome := by
  intro fuel
  induction fuel with
  | zero => intro start acc _ hf; omega
  | succ n ih =>
    intro start acc hfuel _
    by_cases hlt : start < (tokens.length : Int)
    · by_cases hend : (tokens.length : Int) ≤ start + chunkSize - overlap
      · simp [splitLoop, if_pos hlt, if_pos hend]
      · simp only [splitLoop, if_pos hlt, if_neg hend]
        apply ih
        · omega
        · omega
    · simp [splitLoop, if_neg hlt]

/-- The loop's answer does not change when fuel is added. -/
theorem splitLoop_fuel_mono (decode : List Nat → Str) (chunkSize overlap : Int)
    (tokens : List Nat) :
    ∀ fuel (start : Int) acc r fuel', fuel ≤ fuel' →
      splitLoop decode chunkSize overlap fuel start tokens acc = some r →
      splitLoop decode chunkSize overlap fuel' start tokens acc = some r := by
  intro fuel
  induction fuel with
  | zero => intro start acc r fuel' _ hres; simp [splitLoop] at hres
  | succ n ih =>
    intro start acc r fuel' hle hres
    obtain ⟨m, rfl⟩ : ∃ m, fuel' = m + 1 := ⟨fuel' - 1, by omega⟩
    by_cases hlt : start < (tokens.length : Int)
    · by_cases hend : (tokens.length : Int) ≤ start + chunkSize - overlap
      · simp only [splitLoop, if_pos hlt, if_pos hend] at hres ⊢
        exact hres
      · simp only [splitLoop, if_pos hlt, if_neg hend] at hres ⊢
        exact ih _ _ _ _ (by omega) hres
    · simp only [splitLoop, if_neg hlt] at hres ⊢
      exact hres

/-- The `(start, end)` token windows the chunker's loop walks through, under
the same fuel discipline as `splitLoop` (supporting material for the spec's
window-count scenario; the windows do not depend on the tokenizer, only on
the token count). -/
def chunkWindowsLoop (chunkSize overlap tokenCount : Int) :
    Nat → Int → List (Int × Int) → Option (List (Int × Int))
  | 0, _, _ => none
  | fuel + 1, start, acc =>
    if start < tokenCount then
      let e := start + chunkSize
      let acc' := acc ++ [(start, e)]
      let start' := e - overlap
      if tokenCount ≤ start' then some acc'
      else chunkWindowsLoop chunkSize overlap tokenCount fuel start' acc'
    else some acc

/-! ## Whitespace and word splitting -/

/-- Helper for `pySplit`: `acc` holds the current word, reversed. -/
def pySplitAux : Str → Str → List Str
  | [], acc => if acc = [] then [] else [acc.reverse]
  | c :: rest, acc =>
    if pyIsSpace c then
      if acc = [] then pySplitAux rest [] else acc.reverse :: pySplitAux rest []
    else pySplitAux rest (c :: acc)

/-- Python `str.split()` with no argument: split on whitespace runs, no empty
words. -/
def pySplit (l : Str) : List Str := pySplitAux l []

/-- Helper for `wordRuns`: `acc` holds the current run, reversed. -/
def wordRunsAux : Str → Str → List Str
  | [], acc => if acc = [] then [] else [acc.reverse]
  | c :: rest, acc =>
    if isWordChar c then wordRunsAux rest (c :: acc)
    else if acc = [] then wordRunsAux rest [] else acc.reverse :: wordRunsAux rest []

/-- `re.findall(r'\b\w+\b', text)`: the maximal runs of word characters. -/
def wordRuns (l : Str) : List Str := wordRunsAux l []

/-! ## Answer records and the quality gate (`LLMAnswerer`) -/

/-- The Answer Record: `{answer, source_clause, reasoning}`.  The Python code
passes it as a dict whose three keys are always present on pipeline paths. -/
structure AnswerRecord where
  answer : Str
  source_clause : Str
  reasoning : Str
deriving DecidableEq

/-- The Quality Verdict returned by `validate_answer_quality`. -/
structure QualityVerdict where
  quality_score : Int
  issues : List Str
  is_acceptable : Bool
deriving DecidableEq

/-- The default used when the model reply has no Source Clause section. -/
def noClauseSentinel : Str := "No specific clause identified.".data

/-- The honesty-signal phrases of `validate_answer_quality`. -/
def honestyPhrases : List Str :=
  ["i don't know".data, "cannot determine".data, "not available".data, "unable to".data]

/-- `LLMAnswerer.validate_answer_quality`, with the same sequential score
updates as the source. -/
def validate_answer_quality (answerData : AnswerRecord) : QualityVerdict :=
  let score0 : Int := 0
  let issues0 : List Str := []
  let step1 :=
    if answerData.answer.length < 10 then
      (score0 - 1, issues0 ++ ["Answer too short".data])
    else (score0, issues0)
  let step2 :=
    if answerData.source_clause = [] ∨ answerData.source_clause = noClauseSentinel then
      (step1.1 - 1, step1.2 ++ ["No source clause provided".data])
    else step1
  let step3 :=
    if answerData.reasoning = [] ∨ answerData.reasoning.length < 10 then
      (step2.1 - 1, step2.2 ++ ["Insufficient reasoning".data])
    else step2
  let answerText := pyLower answerData.answer
  let score :=
    if honestyPhrases.any (fun p => containsSub answerText p) then step3.1 + 1 else step3.1
  { quality_score := score, issues := step3.2, is_acceptable := score ≥ -1 }

/-! ## The clause verifier (`_find_exact_clause` and its use in
`_parse_response`) -/

/-- A character removed by `re.sub(r'["\']', '', quoted_text)`. -/
def isQuoteChar (c : Char) : Bool := c = '"' || c = '\''

/-- `full_document[lo:hi]` with natural indices (as produced by
`max(0, ...)`/`min(len, ...)` in the source). -/
def sliceNat (l : Str) (lo hi : Nat) : Str := (l.drop lo).take (hi - lo)

/-- Expansion of a found 3-word phrase to the ±100-character window around
it, stripped (lines 197–204 of `llm_answerer_gemini.py`). -/
def expandWindow (doc : Str) (startIdx phraseLen : Nat) : Str :=
  let endIdx := startIdx + phraseLen
  let contextStart := startIdx - 100
  let contextEnd := min doc.length (endIdx + 100)
  pyStrip (sliceNat doc contextStart contextEnd)

/-- The `for i in range(len(words) - 2)` loop: the first 3-word phrase found
verbatim in the document wins and is expanded. -/
def findPhraseLoop (doc : Str) : List Str → Option Str
  | w1 :: w2 :: w3 :: rest =>
    let phrase := w1 ++ ' ' :: w2 ++ ' ' :: w3
    (match findSub phrase doc with
     | some s => some (expandWindow doc s phrase.length)
     | none => findPhraseLoop doc (w2 :: w3 :: rest))
  | _ => none

/-- `LLMAnswerer._find_exact_clause`: strip quote characters, prefer an exact
substring match, otherwise slide a 3-word window (only when the claim has
more than 3 words). -/
def find_exact_clause (quotedText fullDocument : Str) : Option Str :=
  let cleanQuote := pyStrip (quotedText.filter (fun c => !(isQuoteChar c)))
  if containsSub fullDocument cleanQuote then some cleanQuote
  else
    let words := pySplit cleanQuote
    if 3 < words.length then findPhraseLoop fullDocument words
    else none

/-- The clause-verification step of `_parse_response` (lines 163–167): run
`_find_exact_clause` unless the clause is empty or the sentinel, and keep the
original clause when the result is `None` or empty (Python truthiness). -/
def verify_clause (sourceClause fullDocument : Str) : Str :=
  if sourceClause ≠ [] ∧ sourceClause ≠ noClauseSentinel then
    match find_exact_clause sourceClause fullDocument with
    | some e => if e ≠ [] then e else sourceClause
    | none => sourceClause
  else sourceClause

/-! ## Parsing and the generation call -/

/-- One labeled section of the model reply, per the source regex
`label\s*(.+?)(?=\n|$)` with IGNORECASE and DOTALL: find the label
case-insensitively, skip whitespace (including newlines, consumed by the
greedy `\s*`), then capture at least one character up to the next newline or
the end.  (The embedding searches only the first label occurrence; `re`
would backtrack to a later occurrence in the degenerate case where nothing
follows the label, which no theorem below depends on.) -/
def extractSection (label response : Str) : Option Str :=
  match findSub (pyLower label) (pyLower response) with
  | none => none
  | some i =>
    let rest := (response.drop (i + label.length)).dropWhile pyIsSpace
    if rest = [] then none else some (rest.takeWhile (fun c => c ≠ '\n'))

/-- `LLMAnswerer._parse_response` (the `chunks` argument of the source is
unused there). -/
def parse_response (response : Str) (fullDocument : Str) : AnswerRecord :=
  let answer :=
    ((extractSection ("Answer:".data) response).map pyStrip).getD
      ("Unable to determine answer from document.".data)
  let sourceClause :=
    ((extractSection ("Source Clause:".data) response).map pyStrip).getD noClauseSentinel
  let reasoning :=
    ((extractSection ("Reasoning:".data) response).map pyStrip).getD
      ("Based on document analysis.".data)
  { answer := answer
    source_clause := verify_clause sourceClause fullDocument
    reasoning := reasoning }

/-- `LLMAnswerer._create_fallback_response` (§4.4.1 Fallback Response; the
question argument is ignored by the source). -/
def create_fallback_response (_question : Str) : AnswerRecord :=
  { answer := "Unable to process the question due to technical issues. Please try again.".data
    source_clause := "No source clause available.".data
    reasoning := "Technical error prevented document analysis.".data }

/-- `LLMAnswerer._prepare_context`: label and join the retrieved chunks. -/
def prepare_context (chunks : List Str) : Str :=
  if chunks = [] then "No relevant information found in the document.".data
  else
    List.intercalate ['\n']
      (chunks.mapIdx (fun i chunk =>
        "CHUNK ".data ++ (toString (i + 1)).data ++ [':', '\n'] ++ chunk ++ ['\n']))

/-- `LLMAnswerer._create_prompt`: the fixed instruction block around the
context and the question (the f-string of lines 85–121, with its two
placeholders spliced in). -/
def create_prompt (question context : Str) : Str :=
  ("You are an expert insurance and legal document analyst with deep expertise in policy interpretation. Your task is to provide precise, accurate answers based on the provided document context.\n\nDOCUMENT CONTEXT:\n".data)
  ++ context
  ++ ("\n\nQUESTION: ".data)
  ++ question
  ++ ("\n\nCRITICAL INSTRUCTIONS:\n1. Answer the question based ONLY on the provided document context\n2. If the information is not explicitly stated in the context, respond with \"The information is not available in the provided document\"\n3. Provide a clear, comprehensive answer that directly addresses the question\n4. Quote the EXACT clause, section, or paragraph that supports your answer\n5. Provide detailed legal/insurance reasoning for your conclusion\n6. Include specific numbers, dates, percentages, and conditions mentioned in the document\n7. If multiple conditions apply, list them all clearly\n\nRESPONSE FORMAT:\nAnswer: [Your direct, comprehensive answer to the question]\nSource Clause: [Exact quote from the document that supports your answer]\nReasoning: [Detailed legal/insurance justification based on the quoted clause]\n\nACCURACY REQUIREMENTS:\n- Do not hallucinate or make assumptions beyond the provided context\n- Only use information explicitly stated in the document\n- Quote the exact text from the document with proper attribution\n- Include section numbers, clause references, and page numbers if available\n- Be precise with numbers, dates, and conditions\n- If the answer involves multiple parts, address each part separately\n- For coverage questions, clearly state what is covered and what is excluded\n- For waiting periods, specify exact durations and conditions\n- For limits and sub-limits, provide exact amounts and conditions\n\nQUALITY STANDARDS:\n- Ensure answers are legally accurate and professionally worded\n- Maintain consistency with insurance industry terminology\n- Provide complete information without omitting important details\n- Structure complex answers in a clear, logical manner".data)

/-- The retry loop of `LLMAnswerer._call_gemini`: `remaining` attempts are
left, the current one is number `attempt` (0-based) and the next backoff
sleep would last `retryDelay`.  The oracle `call` gives each attempt's
outcome (`none` = the external call raised).  Returns the loop's result
together with the list of sleeps performed, in order. -/
def callGeminiFrom (call : Nat → Option Str) :
    Nat → Nat → Nat → Option Str × List Nat
  | _, _, 0 => (none, [])
  | attempt, retryDelay, remaining + 1 =>
    match call attempt with
    | some t => (some (pyStrip t), [])
    | none =>
      if remaining = 0 then (none, [])
      else
        let r := callGeminiFrom call (attempt + 1) (retryDelay * 2) remaining
        (r.1, retryDelay :: r.2)

/-- `LLMAnswerer._call_gemini`: `max_retries = 3`, `retry_delay = 1`.  The
oracle is per-prompt: the external model is called on `prompt` at each
attempt. -/
def call_gemini (call : Str → Nat → Option Str) (prompt : Str) : Option Str × List Nat :=
  callGeminiFrom (call prompt) 0 1 3

/-- `LLMAnswerer.generate_answer`: build the context and prompt, call the
model with retries, and fall back to the §4.4.1 record when the call returns
`None` or an empty reply (both falsy, hence both raise in the source and are
caught by the same handler). -/
def generate_answer (call : Str → Nat → Option Str) (question : Str)
    (relevantChunks : List Str) (fullDocument : Str) : AnswerRecord :=
  let context := prepare_context relevantChunks
  let prompt := create_prompt question context
  match (call_gemini call prompt).1 with
  | none => create_fallback_response question
  | some response =>
    if response = [] then create_fallback_response question
    else parse_response response fullDocument

/-! ## Response formatting (`utils.format_response`) -/

/-- `utils.format_response`: default empty fields, strip, replace a short
answer, and overwrite clause and reasoning when the answer signals
unavailability. -/
def format_response (answer source_clause reasoning : Str) : AnswerRecord :=
  let answer1 :=
    if answer = [] ∨ pyStrip answer = [] then
      "Unable to determine answer from the provided document.".data
    else answer
  let clause1 :=
    if source_clause = [] ∨ pyStrip source_clause = [] then
      "No specific clause identified in the document.".data
    else source_clause
  let reasoning1 :=
    if reasoning = [] ∨ pyStrip reasoning = [] then
      "Based on analysis of the provided document content.".data
    else reasoning
  let fAnswer := pyStrip answer1
  let fClause := pyStrip clause1
  let fReasoning := pyStrip reasoning1
  let fAnswer2 :=
    if fAnswer.length < 10 then
      "The information is not available in the provided document.".data
    else fAnswer
  if containsSub (pyLower fAnswer2) ("not available".data) ∨
      containsSub (pyLower fAnswer2) ("unable to".data) then
    { answer := fAnswer2
      source_clause := "No relevant clause found in the document.".data
      reasoning := "The requested information is not explicitly stated in the provided document.".data }
  else
    { answer := fAnswer2, source_clause := fClause, reasoning := fReasoning }

/-! ## The similarity index (`embedder_simple.SimpleEmbedder`)

Float arithmetic is idealised as exact arithmetic: term frequencies are the
exact rationals `count/len`, inverse document frequencies are `Real.log`,
and cosine similarity uses `Real.sqrt` — hence the `noncomputable` marks. -/

/-- The stop-word set of `SimpleEmbedder.__init__`. -/
def stopWords : List Str :=
  (["the", "a", "an", "and", "or", "but", "in", "on", "at", "to", "for", "of",
    "with", "by", "is", "are", "was", "were", "be", "been", "have", "has",
    "had", "do", "does", "did", "will", "would", "could", "should", "may",
    "might", "must", "shall", "can", "this", "that", "these", "those", "i",
    "you", "he", "she", "it", "we", "they", "me", "him", "her", "us",
    "them"]).map String.data

/-- `SimpleEmbedder._tokenize`: lowercase, take word-character runs, drop
stop words and words of length ≤ 2. -/
def tokenize (text : Str) : List Str :=
  (wordRuns (pyLower text)).filter (fun w => !(stopWords.contains w) && 2 < w.length)

/-- Lexicographic code-point order on words (Python `sorted` over strings). -/
def wordLt : Str → Str → Bool
  | [], [] => false
  | [], _ :: _ => true
  | _ :: _, [] => false
  | a :: as, b :: bs =>
    if a.toNat < b.toNat then true
    else if b.toNat < a.toNat then false
    else wordLt as bs

/-- Ascending insertion into a sorted word list. -/
def insertWord (w : Str) : List Str → List Str
  | [] => [w]
  | v :: vs => if wordLt v w then v :: insertWord w vs else w :: v :: vs

/-- Ascending insertion sort: the input-output behaviour of Python `sorted`
(over the duplicate-free word set the order is total and strict, so the
sorted list is unique). -/
def sortWords : List Str → List Str
  | [] => []
  | w :: ws => insertWord w (sortWords ws)

/-- `SimpleEmbedder._build_vocabulary`: the sorted set of all surviving
tokens across all chunks; a term's column index is its position here. -/
def build_vocabulary (chunks : List Str) : List Str :=
  sortWords ((chunks.map tokenize).join.dedup)

/-- The term-frequency vector over the vocabulary: `count/len` per term, 0
for an empty token list.  The source implements this formula twice — inside
`_compute_tf_idf` (via `Counter`, writing only the present terms, absent
terms staying `0.0`) and in `_query_to_vector`; both are exactly
`count(term)/len(words)` per vocabulary slot. -/
def tfVecQ (ws : List Str) (vocab : List Str) : List ℚ :=
  vocab.map (fun v => if ws.length = 0 then 0 else (ws.count v : ℚ) / (ws.length : ℚ))

/-- Document frequency of term `v`: in how many chunks' token lists it
occurs (`df` of `_compute_tf_idf`). -/
def dfCount (wls : List (List Str)) (v : Str) : Nat :=
  wls.countP (fun ws => decide (v ∈ ws))

/-- `SimpleEmbedder._compute_tf_idf`: the TF matrix, each column scaled by
`ln(num_docs / df)` when `df > 0` (a term with `df = 0` keeps its raw —
necessarily zero — TF entries, as the source skips its column). -/
noncomputable def tfidfMatrix (chunks : List Str) : List (List ℝ) :=
  let wls := chunks.map tokenize
  let vocab := build_vocabulary chunks
  let n := chunks.length
  wls.map (fun ws =>
    (vocab.zip (tfVecQ ws vocab)).map (fun p =>
      if 0 < dfCount wls p.1 then
        (p.2 : ℝ) * Real.log ((n : ℝ) / (dfCount wls p.1 : ℝ))
      else (p.2 : ℝ)))

/-- The embedder's state after `create_faiss_index` has split the text and
built vocabulary and matrix (§4.2 `build`; the chunk-splitting step is the
separately modelled `split_text_into_chunks`). -/
structure EmbedderState where
  chunks : List Str
  vocab : List Str
  tfidf : List (List ℝ)

noncomputable def create_index (chunks : List Str) : EmbedderState :=
  { chunks := chunks, vocab := build_vocabulary chunks, tfidf := tfidfMatrix chunks }

/-- `SimpleEmbedder._query_to_vector` (raw TF against the query's own token
count; no IDF scaling — unlike the matrix rows). -/
def queryVecQ (vocab : List Str) (query : Str) : List ℚ := tfVecQ (tokenize query) vocab

noncomputable def query_to_vector (st : EmbedderState) (query : Str) : List ℝ :=
  (queryVecQ st.vocab query).map (fun q : ℚ => (q : ℝ))

/-- `SimpleEmbedder._cosine_similarity`, with the source's zero-norm
guard. -/
noncomputable def cosine_similarity (v w : List ℝ) : ℝ :=
  let dot := (List.zipWith (· * ·) v w).sum
  let norm1 := Real.sqrt ((v.map (fun a => a * a)).sum)
  let norm2 := Real.sqrt ((w.map (fun b => b * b)).sum)
  if norm1 = 0 ∨ norm2 = 0 then 0 else dot / (norm1 * norm2)

/-- The enumerated `(similarity, index)` pairs of `search_similar_chunks`'
first loop, in chunk order starting at `i`. -/
def simPairsFrom : List ℝ → Nat → List (ℝ × Nat)
  | [], _ => []
  | s :: ss, i => (s, i) :: simPairsFrom ss (i + 1)

noncomputable def simPairs (st : EmbedderState) (query : Str) : List (ℝ × Nat) :=
  simPairsFrom (st.tfidf.map (cosine_similarity (query_to_vector st query))) 0

/-- One stable-descending insertion: skip over entries with strictly larger
similarity.  Python's `list.sort(key=λx: x[0], reverse=True)` is stable —
equal keys keep their original (ascending-index) order — and a stable sort's
output is unique, so this insertion sort has the same input-output behaviour
as the source's Timsort call. -/
noncomputable def insertDesc (x : ℝ × Nat) : List (ℝ × Nat) → List (ℝ × Nat)
  | [] => [x]
  | y :: ys => if x.1 < y.1 then y :: insertDesc x ys else x :: y :: ys

noncomputable def sortDesc : List (ℝ × Nat) → List (ℝ × Nat)
  | [] => []
  | x :: xs => insertDesc x (sortDesc xs)

/-- The source's similarity lookup for a chosen index:
`next((sim for sim, i in similarities if i == idx), 0)`, over the sorted
pair list. -/
noncomputable def lookupSim (sorted : List (ℝ × Nat)) (idx : Nat) : ℝ :=
  ((sorted.find? (fun p => p.2 == idx)).map (fun p => p.1)).getD 0

/-- The final loop of `search_similar_chunks`: keep the chunk text of each
top index whose looked-up similarity exceeds the 0.1 threshold. -/
noncomputable def collectChunks (st : EmbedderState) (sorted : List (ℝ × Nat)) :
    List Nat → List Str
  | [] => []
  | idx :: rest =>
    if (1 : ℝ) / 10 < lookupSim sorted idx then
      st.chunks.getD idx [] :: collectChunks st sorted rest
    else collectChunks st sorted rest

/-- The same loop collecting the surviving indices instead of their texts
(used to state ordering and threshold properties of the search result). -/
noncomputable def collectIdx (sorted : List (ℝ × Nat)) : List Nat → List Nat
  | [] => []
  | idx :: rest =>
    if (1 : ℝ) / 10 < lookupSim sorted idx then idx :: collectIdx sorted rest
    else collectIdx sorted rest

/-- `SimpleEmbedder.search_similar_chunks`. -/
noncomputable def search_similar_chunks (st : EmbedderState) (query : Str)
    (topK : Nat) : List Str :=
  let sorted := sortDesc (simPairs st query)
  let topIdx := (sorted.take topK).map (fun p => p.2)
  collectChunks st sorted topIdx

/-- The indices of the chunks `search_similar_chunks` returns, in order. -/
noncomputable def searchSelected (st : EmbedderState) (query : Str) (topK : Nat) : List Nat :=
  let sorted := sortDesc (simPairs st query)
  collectIdx sorted ((sorted.take topK).map (fun p => p.2))

/-- The similarity of the query against chunk row `i`. -/
noncomputable def simOf (st : EmbedderState) (query : Str) (i : Nat) : ℝ :=
  cosine_similarity (query_to_vector st query) (st.tfidf.getD i [])

/-- Specification relation (not source code): the order the sorted
similarity pairs satisfy — strictly descending similarity, ties broken by
strictly ascending original chunk index. -/
def simR (a b : ℝ × Nat) : Prop := b.1 < a.1 ∨ (a.1 = b.1 ∧ a.2 < b.2)

/-- One question of `run_hackrx` (`main.py` lines 138–166): retrieve the top
5 chunks, synthesize an answer, format the record. -/
noncomputable def run_question (st : EmbedderState) (call : Str → Nat → Option Str)
    (question : Str) (pdfText : Str) : AnswerRecord :=
  let relevantChunks := search_similar_chunks st question 5
  let answerData := generate_answer call question relevantChunks pdfText
  format_response answerData.answer answerData.source_clause answerData.reasoning

/-- A concrete 227-character document for exercising the clause verifier: it
contains one double-quote character, and its tail repeats the first 111
characters with the quote removed. -/
def docC6 : Str :=
  ("aaa bbb ccc eee fff ggg hhh iii jjj kkk lll mmm \"nnn ooo ppp qqq rrr sss ttt uuu vvv www xxx yyy zzz 111 222 333 444 aaa bbb ccc eee fff ggg hhh iii jjj kkk lll mmm nnn ooo ppp qqq rrr sss ttt uuu vvv www xxx yyy zzz 111 222 33").data

/-- A concrete 8-chunk corpus for exercising the verbatim-query search
property: document frequencies are non-uniform (qqq and sss occur in 2
chunks, rrr and ttt in 4), so IDF scales matrix columns by different
factors while the query vector stays raw TF. -/
def chunksC5 : List Str :=
  ["qqq qqq qqq rrr".data, "qqq rrr".data, "rrr sss".data, "rrr sss".data,
   "ttt".data, "ttt".data, "ttt".data, "ttt".data]

/-- The query equal verbatim to chunk 0's text. -/
def queryC5 : Str := "qqq qqq qqq rrr".data

/-- The `(similarity, index)` pairs the search enumerates on `chunksC5` with
`queryC5` (expected values, established by `simPairsC5`). -/
noncomputable def pairsC5 : List (ℝ × Nat) :=
  [(19/16/Real.sqrt (185/128), 0), (7/8/Real.sqrt (25/32), 1),
   (1/8/Real.sqrt (25/32), 2), (1/8/Real.sqrt (25/32), 3),
   (0, 4), (0, 5), (0, 6), (0, 7)]

/-- The expected stable descending sort of `pairsC5` (established by
`sortedC5`): chunk 1 outranks the verbatim chunk 0. -/
noncomputable def sortedC5pairs : List (ℝ × Nat) :=
  [(7/8/Real.sqrt (25/32), 1), (19/16/Real.sqrt (185/128), 0),
   (1/8/Real.sqrt (25/32), 2), (1/8/Real.sqrt (25/32), 3),
   (0, 4), (0, 5), (0, 6), (0, 7)]

/-! ## THEOREMS -/

/-- C1: the spec requires `overlap < chunk_size` to be guarded, the violation
failing with an `InvalidConfiguration` error.  The source has no such guard:
with `overlap ≥ chunk_size` and at least one token, `start` never increases,
the `while start < len(tokens)` loop never exits, and no amount of fuel makes
`split_text_into_chunks` return — it neither raises a configuration error nor
returns a chunk sequence. -/
theorem C1_chunk_diverges_when_overlap_ge_size (encode : Str → List Nat)
    (decode : List Nat → Str) (text : Str) (chunkSize overlap : Int)
    (h : chunkSize ≤ overlap) (ht : encode (clean_text text) ≠ []) :
    ∀ fuel, split_text_into_chunks encode decode text chunkSize overlap fuel = none := by
  intro fuel
  exact splitLoop_none_of_step_nonpos decode chunkSize overlap h _ ht fuel 0 [] le_rfl

/-- Witness for C1 at a concrete input: `chunk_size = 300 = overlap` on the
two-token document "hello world" makes the loop spin fuel out (here 1000
iterations) with no error value ever produced. -/
theorem C1_chunk_diverges_witness :
    split_text_into_chunks (fun s => s.map Char.toNat) (fun l => l.map Char.ofNat)
      ("hello world".data) 300 300 1000 = none :=
  C1_chunk_diverges_when_overlap_ge_size _ _ _ _ _ (by norm_num) (by decide) 1000

/-- C9: with `chunk_size > 0` and `0 ≤ overlap < chunk_size` the chunker
terminates — one fixed result is reached by every fuel of at least
`tokens.length + 1` — and, the embedding being a pure function of its
arguments, identical arguments always give that identical chunk sequence. -/
theorem C9_chunk_terminates_deterministically (encode : Str → List Nat)
    (decode : List Nat → Str) (text : Str) (chunkSize overlap : Int)
    (h1 : 0 < chunkSize) (h2 : 0 ≤ overlap) (h3 : overlap < chunkSize) :
    ∃ r, ∀ fuel, (encode (clean_text text)).length + 1 ≤ fuel →
      split_text_into_chunks encode decode text chunkSize overlap fuel = some r := by
  set tokens := encode (clean_text text) with htok
  have hsome : (splitLoop decode chunkSize overlap (tokens.length + 1) 0 tokens []).isSome := by
    apply splitLoop_isSome_of_step_pos decode chunkSize overlap h3 tokens
    · push_cast; omega
    · omega
  obtain ⟨r, hr⟩ := Option.isSome_iff_exists.mp hsome
  refine ⟨r, fun fuel hfuel => ?_⟩
  exact splitLoop_fuel_mono decode chunkSize overlap tokens _ 0 [] r fuel hfuel hr

/-- Witness for C9: the hypotheses hold at `chunk_size = 2, overlap = 1` with
a concrete byte-level tokenizer. -/
theorem C9_chunk_terminates_witness :
    ∃ r, ∀ fuel,
      ((fun (s : Str) => s.map Char.toNat) (clean_text ("ab cd".data))).length + 1 ≤ fuel →
      split_text_into_chunks (fun s => s.map Char.toNat) (fun l => l.map Char.ofNat)
        ("ab cd".data) 2 1 fuel = some r :=
  C9_chunk_terminates_deterministically _ _ _ 2 1 (by norm_num) (by norm_num) (by norm_num)

/-! ### Substring and stripping lemmas -/

theorem isPrefOf_iff (p l : Str) : isPrefOf p l = true ↔ ∃ t, l = p ++ t := by
  induction p generalizing l with
  | nil => simp [isPrefOf]
  | cons a as ih =>
    cases l with
    | nil => simp [isPrefOf]
    | cons b bs =>
      simp only [isPrefOf, Bool.and_eq_true, decide_eq_true_eq, ih]
      constructor
      · rintro ⟨rfl, t, rfl⟩; exact ⟨t, rfl⟩
      · rintro ⟨t, ht⟩
        injection ht with h1 h2
        exact ⟨h1.symm, t, h2⟩

theorem findSub_isSome_iff (pat l : Str) :
    (findSub pat l).isSome = true ↔ ∃ u v, l = u ++ pat ++ v := by
  induction l with
  | nil =>
    simp only [findSub]
    constructor
    · intro h
      split at h
      · exact ⟨[], [], by simp [*]⟩
      · simp at h
    · rintro ⟨u, v, huv⟩
      have h' : u = [] ∧ pat = [] ∧ v = [] := by
        have h2 := huv.symm
        simpa [List.append_eq_nil] using h2
      simp [h'.2.1]
  | cons c rest ih =>
    simp only [findSub]
    split
    · rename_i hp
      obtain ⟨t, ht⟩ := (isPrefOf_iff pat (c :: rest)).mp hp
      refine iff_of_true rfl ⟨[], t, ?_⟩
      simpa using ht
    · rename_i hp
      simp only [Option.isSome_map', ih]
      constructor
      · rintro ⟨u, v, rfl⟩
        exact ⟨c :: u, v, rfl⟩
      · rintro ⟨u, v, huv⟩
        cases u with
        | nil =>
          exfalso
          have hpre : isPrefOf pat (c :: rest) = true := by
            rw [isPrefOf_iff]
            exact ⟨v, by simpa using huv⟩
          simp [hpre] at hp
        | cons c' u' =>
          injection huv with h1 h2
          exact ⟨u', v, h2⟩

theorem containsSub_iff (l pat : Str) :
    containsSub l pat = true ↔ ∃ u v, l = u ++ pat ++ v := by
  unfold containsSub
  exact findSub_isSome_iff pat l

/-- `dropWhile` cannot remove an occurrence whose first character the
predicate rejects. -/
theorem dropWhile_keeps_sub (q : Char → Bool) (p : Str) (c0 : Char)
    (hh : p.head? = some c0) (hq : q c0 = false) :
    ∀ u v : Str, ∃ u' v', (u ++ p ++ v).dropWhile q = u' ++ p ++ v' := by
  intro u v
  induction u with
  | nil =>
    cases p with
    | nil => simp at hh
    | cons a p' =>
      injection hh with hh'
      subst hh'
      refine ⟨[], v, ?_⟩
      simp [List.dropWhile_cons, hq]
  | cons c u' ih =>
    by_cases hc : q c = true
    · obtain ⟨u'', v'', huv⟩ := ih
      refine ⟨u'', v'', ?_⟩
      simp only [List.cons_append, List.append_assoc]
      rw [List.dropWhile_cons, if_pos hc]
      simpa using huv
    · have hc' : q c = false := by simpa using hc
      refine ⟨c :: u', v, ?_⟩
      simp only [List.cons_append, List.append_assoc]
      rw [List.dropWhile_cons, if_neg (by simp [hc'])]

/-- Stripping keeps any occurrence of a pattern whose first and last
characters are not whitespace. -/
theorem pyStrip_keeps_sub (l p : Str) (c0 c1 : Char)
    (hh : p.head? = some c0) (hq0 : pyIsSpace c0 = false)
    (hl : p.getLast? = some c1) (hq1 : pyIsSpace c1 = false)
    (hc : containsSub l p = true) : containsSub (pyStrip l) p = true := by
  obtain ⟨u, v, rfl⟩ := (containsSub_iff l p).mp hc
  obtain ⟨u1, v1, h1⟩ := dropWhile_keeps_sub pyIsSpace p c0 hh hq0 u v
  rw [containsSub_iff]
  unfold pyStrip
  rw [h1]
  have hrev : (u1 ++ p ++ v1).reverse = v1.reverse ++ p.reverse ++ u1.reverse := by
    simp
  rw [hrev]
  have hh' : p.reverse.head? = some c1 := by
    rw [List.head?_reverse]; exact hl
  obtain ⟨u2, v2, h2⟩ := dropWhile_keeps_sub pyIsSpace p.reverse c1 hh' hq1 v1.reverse u1.reverse
  rw [h2]
  exact ⟨v2.reverse, u2.reverse, by simp⟩

theorem char_toNat_ofNat (n : Nat) (h : n.isValidChar) : (Char.ofNat n).toNat = n := by
  unfold Char.ofNat
  rw [dif_pos h]
  unfold Char.ofNatAux
  simp [Char.toNat, UInt32.toNat]

theorem char_eq_iff_toNat (c d : Char) : c = d ↔ c.toNat = d.toNat := by
  constructor
  · rintro rfl; rfl
  · intro h
    exact Char.eq_of_val_eq (UInt32.ext h)

/-- Lowercasing does not change whether a character is whitespace. -/
theorem pyIsSpace_toLower (c : Char) : pyIsSpace c.toLower = pyIsSpace c := by
  simp only [Char.toLower]
  split
  · rename_i h
    have hv : (c.toNat + 32).isValidChar := Or.inl (by omega)
    have ht : (Char.ofNat (c.toNat + 32)).toNat = c.toNat + 32 := char_toNat_ofNat _ hv
    have hsp : (' ' : Char).toNat = 32 := rfl
    have htb : ('\t' : Char).toNat = 9 := rfl
    have hnl : ('\n' : Char).toNat = 10 := rfl
    have hcr : ('\x0d' : Char).toNat = 13 := rfl
    have h11 : (Char.ofNat 11).toNat = 11 := rfl
    have h12 : (Char.ofNat 12).toNat = 12 := rfl
    have h1 : pyIsSpace (Char.ofNat (c.toNat + 32)) = false := by
      simp only [pyIsSpace, Bool.or_eq_false_iff]
      norm_num [char_eq_iff_toNat, ht, hsp, htb, hnl, hcr, h11, h12]
      omega
    have h2 : pyIsSpace c = false := by
      simp only [pyIsSpace, Bool.or_eq_false_iff]
      norm_num [char_eq_iff_toNat, hsp, htb, hnl, hcr, h11, h12]
      omega
    rw [h1, h2]
  · rfl

theorem dropWhile_map_toLower (l : Str) :
    (l.map Char.toLower).dropWhile pyIsSpace = (l.dropWhile pyIsSpace).map Char.toLower := by
  induction l with
  | nil => rfl
  | cons c rest ih =>
    simp only [List.map_cons, List.dropWhile_cons, pyIsSpace_toLower]
    by_cases hc : pyIsSpace c = true
    · simpa [hc] using ih
    · have hc' : pyIsSpace c = false := by simpa using hc
      simp [hc']

/-- Lowercasing commutes with stripping. -/
theorem pyLower_pyStrip (l : Str) : pyLower (pyStrip l) = pyStrip (pyLower l) := by
  unfold pyStrip pyLower
  rw [dropWhile_map_toLower]
  rw [← List.map_reverse, dropWhile_map_toLower, List.map_reverse]

/-! ### The quality gate -/

/-- C7: the Quality Gate is a pure function of the Answer Record (the
embedding is a total function, so purity and non-mutation are structural):
its score is exactly the sum of the three independent one-point deductions
and the one-point honesty bonus, and `is_acceptable` holds exactly when the
score is at least −1. -/
theorem C7_quality_gate_formula (r : AnswerRecord) :
    (validate_answer_quality r).quality_score =
      (if r.answer.length < 10 then (-1 : Int) else 0) +
      (if r.source_clause = [] ∨ r.source_clause = noClauseSentinel then (-1 : Int) else 0) +
      (if r.reasoning = [] ∨ r.reasoning.length < 10 then (-1 : Int) else 0) +
      (if honestyPhrases.any (fun p => containsSub (pyLower r.answer) p) then (1 : Int) else 0) ∧
    ((validate_answer_quality r).is_acceptable = true ↔
      -1 ≤ (validate_answer_quality r).quality_score) := by
  unfold validate_answer_quality
  constructor
  · dsimp only
    split_ifs <;> ring
  · dsimp only
    split_ifs <;> simp [ge_iff_le]

/-! ### The generation retry loop and the fallback record -/

/-- Three failing attempts: the result is `None` and the two backoff sleeps
last 1 and 2 time units. -/
theorem callGeminiFrom_all_fail (call : Nat → Option Str)
    (h0 : call 0 = none) (h1 : call 1 = none) (h2 : call 2 = none) :
    callGeminiFrom call 0 1 3 = (none, [1, 2]) := by
  simp [callGeminiFrom, h0, h1, h2]

/-- When every attempt of the external call fails, `generate_answer` returns
the §4.4.1 Fallback Response. -/
theorem generate_answer_all_fail (call : Str → Nat → Option Str) (question : Str)
    (relevantChunks : List Str) (fullDocument : Str)
    (hf : ∀ i, i < 3 → call (create_prompt question (prepare_context relevantChunks)) i = none) :
    generate_answer call question relevantChunks fullDocument =
      create_fallback_response question := by
  have hcall := callGeminiFrom_all_fail _ (hf 0 (by norm_num)) (hf 1 (by norm_num))
    (hf 2 (by norm_num))
  simp only [generate_answer, call_gemini]
  rw [hcall]

/-- C3: when all 3 generation attempts fail, the Answer Synthesizer sleeps 1
then 2 time units between the attempts (exponentially doubling backoff
starting at 1), its call loop yields `None`, and the synthesized record is
exactly the §4.4.1 Fallback Response. -/
theorem C3_retry_backoff_and_exact_fallback (call : Str → Nat → Option Str)
    (question : Str) (relevantChunks : List Str) (fullDocument : Str)
    (hf : ∀ i, i < 3 → call (create_prompt question (prepare_context relevantChunks)) i = none) :
    (call_gemini call (create_prompt question (prepare_context relevantChunks))).2 = [1, 2] ∧
    (call_gemini call (create_prompt question (prepare_context relevantChunks))).1 = none ∧
    generate_answer call question relevantChunks fullDocument =
      { answer := "Unable to process the question due to technical issues. Please try again.".data
        source_clause := "No source clause available.".data
        reasoning := "Technical error prevented document analysis.".data } := by
  have hcall := callGeminiFrom_all_fail _ (hf 0 (by norm_num)) (hf 1 (by norm_num))
    (hf 2 (by norm_num))
  refine ⟨?_, ?_, ?_⟩
  · unfold call_gemini; rw [hcall]
  · unfold call_gemini; rw [hcall]
  · rw [generate_answer_all_fail call question relevantChunks fullDocument hf]
    rfl

/-- Witness for C3 at a concrete input: the always-failing oracle. -/
theorem C3_retry_backoff_witness :
    (call_gemini (fun _ _ => none)
      (create_prompt ("What is covered?".data) (prepare_context []))).2 = [1, 2] ∧
    (call_gemini (fun _ _ => none)
      (create_prompt ("What is covered?".data) (prepare_context []))).1 = none ∧
    generate_answer (fun _ _ => none) ("What is covered?".data) [] ("doc".data) =
      { answer := "Unable to process the question due to technical issues. Please try again.".data
        source_clause := "No source clause available.".data
        reasoning := "Technical error prevented document analysis.".data } :=
  C3_retry_backoff_and_exact_fallback (fun _ _ => none) ("What is covered?".data) []
    ("doc".data) (fun _ _ => rfl)

/-! ### Response formatting -/

/-- The two availability phrases both start and end with non-space letters;
any occurrence in the lowered answer therefore survives stripping, and
`format_response` overwrites the clause and the reasoning. -/
theorem format_response_unavailable (answer source_clause reasoning : Str)
    (h : containsSub (pyLower answer) ("not available".data) = true ∨
         containsSub (pyLower answer) ("unable to".data) = true) :
    (format_response answer source_clause reasoning).source_clause =
      "No relevant clause found in the document.".data ∧
    (format_response answer source_clause reasoning).reasoning =
      "The requested information is not explicitly stated in the provided document.".data := by
  have hstrip : containsSub (pyLower (pyStrip answer)) ("not available".data) = true ∨
      containsSub (pyLower (pyStrip answer)) ("unable to".data) = true := by
    rcases h with h | h
    · left
      rw [pyLower_pyStrip]
      exact pyStrip_keeps_sub _ _ 'n' 'e' rfl rfl rfl rfl h
    · right
      rw [pyLower_pyStrip]
      exact pyStrip_keeps_sub _ _ 'u' 'o' rfl rfl rfl rfl h
  have hne : answer ≠ [] := by
    rintro rfl
    rcases h with h | h <;> simp [pyLower, containsSub, findSub] at h
  have hsne : pyStrip answer ≠ [] := by
    intro hnil
    rw [hnil] at hstrip
    rcases hstrip with h' | h' <;> simp [pyLower, containsSub, findSub] at h'
  unfold format_response
  simp only [if_neg (show ¬(answer = [] ∨ pyStrip answer = []) by simp [hne, hsne])]
  by_cases hlen : (pyStrip answer).length < 10
  · simp only [if_pos hlen]
    have hconc : containsSub
        (pyLower ("The information is not available in the provided document.".data))
        ("not available".data) = true := by decide
    simp [hconc]
  · simp only [if_neg hlen]
    rcases hstrip with h' | h'
    · simp [h']
    · simp [h']

/-! ### The clause verifier -/

theorem dropWhile_head_false (q : Char → Bool) :
    ∀ (l : Str) c t, l.dropWhile q = c :: t → q c = false := by
  intro l
  induction l with
  | nil => intro c t h; simp at h
  | cons a rest ih =>
    intro c t h
    rw [List.dropWhile_cons] at h
    by_cases ha : q a = true
    · rw [if_pos ha] at h
      exact ih c t h
    · rw [if_neg ha] at h
      injection h with h1 _
      subst h1
      simpa using ha

theorem dropWhile_self (q : Char → Bool) (l : Str) :
    (l.dropWhile q).dropWhile q = l.dropWhile q := by
  cases h : l.dropWhile q with
  | nil => rfl
  | cons c t =>
    rw [List.dropWhile_cons, if_neg]
    simp [dropWhile_head_false q l c t h]

theorem dropWhile_decomp (q : Char → Bool) (l : Str) : ∃ a, l = a ++ l.dropWhile q :=
  ⟨l.takeWhile q, (List.takeWhile_append_dropWhile q l).symm⟩

/-- The strip of a list is a prefix of its leading-whitespace drop. -/
theorem pyStrip_pre (l : Str) : ∃ z, l.dropWhile pyIsSpace = pyStrip l ++ z := by
  unfold pyStrip
  obtain ⟨a, ha⟩ := dropWhile_decomp pyIsSpace (l.dropWhile pyIsSpace).reverse
  refine ⟨a.reverse, ?_⟩
  calc l.dropWhile pyIsSpace
      = (l.dropWhile pyIsSpace).reverse.reverse := by rw [List.reverse_reverse]
    _ = (a ++ (l.dropWhile pyIsSpace).reverse.dropWhile pyIsSpace).reverse := by rw [← ha]
    _ = ((l.dropWhile pyIsSpace).reverse.dropWhile pyIsSpace).reverse ++ a.reverse := by
        rw [List.reverse_append]

/-- Any list splits as junk, its strip, junk. -/
theorem strip_decomp (l : Str) : ∃ a b, l = a ++ pyStrip l ++ b := by
  obtain ⟨a, ha⟩ := dropWhile_decomp pyIsSpace l
  obtain ⟨z, hz⟩ := pyStrip_pre l
  exact ⟨a, z, by rw [List.append_assoc, ← hz, ← ha]⟩

theorem pyStrip_eq_self (x : Str) (hx1 : x.dropWhile pyIsSpace = x)
    (hx2 : x.reverse.dropWhile pyIsSpace = x.reverse) : pyStrip x = x := by
  unfold pyStrip
  rw [hx1, hx2, List.reverse_reverse]

theorem pyStrip_idem (l : Str) : pyStrip (pyStrip l) = pyStrip l := by
  apply pyStrip_eq_self
  · cases hB : pyStrip l with
    | nil => rfl
    | cons c t =>
      obtain ⟨z, hz⟩ := pyStrip_pre l
      have hc : l.dropWhile pyIsSpace = c :: (t ++ z) := by
        rw [hz, hB]; simp
      rw [List.dropWhile_cons, if_neg]
      simp [dropWhile_head_false pyIsSpace l c (t ++ z) hc]
  · have hrev : (pyStrip l).reverse = (l.dropWhile pyIsSpace).reverse.dropWhile pyIsSpace := by
      unfold pyStrip
      rw [List.reverse_reverse]
    rw [hrev]
    exact dropWhile_self _ _

theorem mem_of_strip (l : Str) : ∀ c ∈ pyStrip l, c ∈ l := by
  intro c hc
  obtain ⟨a, b, hab⟩ := strip_decomp l
  rw [hab]
  simp [hc]

theorem mem_of_containsSub (D x : Str) (h : containsSub D x = true) :
    ∀ c ∈ x, c ∈ D := by
  intro c hc
  obtain ⟨u, v, rfl⟩ := (containsSub_iff D x).mp h
  simp [hc]

theorem sliceNat_decomp (D : Str) (lo hi : Nat) :
    ∃ u v, D = u ++ sliceNat D lo hi ++ v := by
  refine ⟨D.take lo, (D.drop lo).drop (hi - lo), ?_⟩
  unfold sliceNat
  rw [List.append_assoc, List.take_append_drop, List.take_append_drop]

/-- Every expanded window is (after stripping) a substring of the document. -/
theorem contains_expandWindow (D : Str) (s n : Nat) :
    containsSub D (expandWindow D s n) = true := by
  rw [containsSub_iff]
  simp only [expandWindow]
  obtain ⟨u, v, huv⟩ := sliceNat_decomp D (s - 100) (min D.length (s + n + 100))
  obtain ⟨a, b, hab⟩ := strip_decomp (sliceNat D (s - 100) (min D.length (s + n + 100)))
  set w := pyStrip (sliceNat D (s - 100) (min D.length (s + n + 100))) with hw
  refine ⟨u ++ a, b ++ v, ?_⟩
  rw [huv, hab]
  simp [List.append_assoc]

theorem findPhraseLoop_shape (D : Str) :
    ∀ ws r, findPhraseLoop D ws = some r → ∃ s n, r = expandWindow D s n := by
  intro ws
  induction ws with
  | nil => intro r h; simp [findPhraseLoop] at h
  | cons w1 tail ih =>
    intro r h
    match tail, ih with
    | [], _ => simp [findPhraseLoop] at h
    | [w2], _ => simp [findPhraseLoop] at h
    | w2 :: w3 :: rest, ih =>
      simp only [findPhraseLoop] at h
      cases hf : findSub (w1 ++ ' ' :: w2 ++ ' ' :: w3) D with
      | some s =>
        rw [hf] at h
        injection h with h'
        exact ⟨s, (w1 ++ ' ' :: w2 ++ ' ' :: w3).length, h'.symm⟩
      | none =>
        rw [hf] at h
        exact ih r h

theorem find_exact_clause_shape (c D r : Str) (h : find_exact_clause c D = some r) :
    (r = pyStrip (c.filter (fun ch => !(isQuoteChar ch))) ∧ containsSub D r = true) ∨
    (∃ s n, r = expandWindow D s n) := by
  simp only [find_exact_clause] at h
  by_cases hc : containsSub D (pyStrip (c.filter (fun ch => !(isQuoteChar ch)))) = true
  · rw [if_pos hc] at h
    injection h with h'
    left
    exact ⟨h'.symm, by rw [← h']; exact hc⟩
  · rw [if_neg hc] at h
    split at h
    · right
      exact findPhraseLoop_shape D _ r h
    · simp at h

/-- A stripped, quote-free string that occurs in the document verifies to
itself. -/
theorem verify_clause_fixed (e D : Str) (hq : ∀ c ∈ e, isQuoteChar c = false)
    (hs : pyStrip e = e) (hc : containsSub D e = true) : verify_clause e D = e := by
  unfold verify_clause
  by_cases hg : e ≠ [] ∧ e ≠ noClauseSentinel
  · rw [if_pos hg]
    have hfilter : e.filter (fun ch => !(isQuoteChar ch)) = e := by
      rw [List.filter_eq_self]
      intro a ha
      simp [hq a ha]
    have hfec : find_exact_clause e D = some e := by
      simp only [find_exact_clause, hfilter, hs, hc, if_true]
    rw [hfec]
    show (if e ≠ [] then e else e) = e
    rw [if_pos hg.1]
  · rw [if_neg hg]

/-- C6 amended: clause verification is idempotent on every document that
contains no quote character.  (The counterexample below shows idempotence
fails in general: an expanded window that contains a quote character is
cleaned on re-verification and can match elsewhere.) -/
theorem C6_amended_verify_idempotent_no_quotes (c D : Str)
    (hD : ∀ ch ∈ D, isQuoteChar ch = false) :
    verify_clause (verify_clause c D) D = verify_clause c D := by
  by_cases hg : c ≠ [] ∧ c ≠ noClauseSentinel
  · cases hfec : find_exact_clause c D with
    | none =>
      have h0 : verify_clause c D = c := by
        unfold verify_clause; rw [if_pos hg, hfec]
      rw [h0]; exact h0
    | some e =>
      by_cases he : e = []
      · have h0 : verify_clause c D = c := by
          unfold verify_clause; rw [if_pos hg, hfec]; simp [he]
        rw [h0]; exact h0
      · have h0 : verify_clause c D = e := by
          unfold verify_clause; rw [if_pos hg, hfec]; simp [he]
        rw [h0]
        rcases find_exact_clause_shape c D e hfec with ⟨hcq, hce⟩ | ⟨s, n, hwin⟩
        · apply verify_clause_fixed
          · intro ch hch
            rw [hcq] at hch
            have hmem := mem_of_strip _ ch hch
            have := List.of_mem_filter hmem
            simpa using this
          · rw [hcq]; exact pyStrip_idem _
          · exact hce
        · apply verify_clause_fixed
          · intro ch hch
            rw [hwin] at hch
            exact hD ch (mem_of_containsSub D _ (contains_expandWindow D s n) ch hch)
          · rw [hwin]
            simp only [expandWindow]
            exact pyStrip_idem _
          · rw [hwin]; exact contains_expandWindow D s n
  · have h0 : verify_clause c D = c := by
      unfold verify_clause; rw [if_neg hg]
    rw [h0]; exact h0

/-- Witness for the amended C6 at a concrete quote-free document. -/
theorem C6_amended_verify_idempotent_witness :
    verify_clause (verify_clause ("grace period of thirty days".data) ("The policy allows a grace period of thirty days for premium payment.".data)) ("The policy allows a grace period of thirty days for premium payment.".data) =
      verify_clause ("grace period of thirty days".data) ("The policy allows a grace period of thirty days for premium payment.".data) :=
  C6_amended_verify_idempotent_no_quotes _ _ (by decide)

/-- C6 counterexample: on `docC6` (which holds one double quote), verifying
the claimed clause "aaa bbb ccc ddd" expands the first 3-word phrase to a
111-character window that contains the quote; re-verifying that window
strips the quote, finds the cleaned text verbatim in the document's tail and
returns it, so the second verification differs from the first. -/
theorem C6_counterexample_verify_not_idempotent :
    verify_clause (verify_clause ("aaa bbb ccc ddd".data) docC6) docC6 ≠
      verify_clause ("aaa bbb ccc ddd".data) docC6 := by decide

/-! ### Similarity: totality, the zero-norm guard, non-negativity -/

theorem cosine_similarity_nil (v : List ℝ) : cosine_similarity v [] = 0 := by
  simp [cosine_similarity]

theorem zipWith_mul_sum_nonneg (v : List ℝ) :
    ∀ w : List ℝ, (∀ x ∈ v, 0 ≤ x) → (∀ x ∈ w, 0 ≤ x) →
      0 ≤ (List.zipWith (· * ·) v w).sum := by
  induction v with
  | nil => intro w _ _; simp
  | cons a as ih =>
    intro w hv hw
    cases w with
    | nil => simp
    | cons b bs =>
      simp only [List.zipWith_cons_cons, List.sum_cons]
      have h1 : 0 ≤ a * b :=
        mul_nonneg (hv a (by simp)) (hw b (by simp))
      have h2 := ih bs (fun x hx => hv x (by simp [hx])) (fun x hx => hw x (by simp [hx]))
      linarith

theorem cosine_similarity_nonneg (v w : List ℝ) (hv : ∀ x ∈ v, 0 ≤ x)
    (hw : ∀ x ∈ w, 0 ≤ x) : 0 ≤ cosine_similarity v w := by
  simp only [cosine_similarity]
  split
  · exact le_refl 0
  · apply div_nonneg (zipWith_mul_sum_nonneg v w hv hw)
    exact mul_nonneg (Real.sqrt_nonneg _) (Real.sqrt_nonneg _)

theorem tfVecQ_nonneg (ws : List Str) (vocab : List Str) :
    ∀ q ∈ tfVecQ ws vocab, 0 ≤ q := by
  intro q hq
  simp only [tfVecQ, List.mem_map] at hq
  obtain ⟨v, _, rfl⟩ := hq
  split
  · exact le_refl 0
  · positivity

theorem query_to_vector_nonneg (st : EmbedderState) (query : Str) :
    ∀ x ∈ query_to_vector st query, 0 ≤ x := by
  intro x hx
  rw [query_to_vector] at hx
  obtain ⟨q, hq, rfl⟩ := List.mem_map.mp hx
  have hnn := tfVecQ_nonneg (tokenize query) st.vocab q (by simpa [queryVecQ] using hq)
  exact_mod_cast hnn

theorem tfidf_entry_nonneg (chunks : List Str) :
    ∀ row ∈ tfidfMatrix chunks, ∀ x ∈ row, 0 ≤ x := by
  intro row hrow x hx
  simp only [tfidfMatrix, List.mem_map] at hrow
  obtain ⟨ws, hws, rfl⟩ := hrow
  simp only [List.mem_map] at hx
  obtain ⟨p, hp, rfl⟩ := hx
  have hq : 0 ≤ p.2 := tfVecQ_nonneg _ _ p.2 (List.mem_zip hp).2
  split
  · rename_i hdf
    apply mul_nonneg (by exact_mod_cast hq)
    apply Real.log_nonneg
    rw [le_div_iff (by exact_mod_cast hdf)]
    have hle : dfCount (chunks.map tokenize) p.1 ≤ chunks.length := by
      calc dfCount (chunks.map tokenize) p.1 ≤ (chunks.map tokenize).length :=
            List.countP_le_length _
        _ = chunks.length := List.length_map _ _
    rw [one_mul]
    exact_mod_cast hle
  · exact_mod_cast hq

theorem query_to_vector_zero (st : EmbedderState) (query : Str)
    (h : ∀ w ∈ tokenize query, w ∉ st.vocab) :
    ∀ x ∈ query_to_vector st query, x = 0 := by
  intro x hx
  rw [query_to_vector] at hx
  obtain ⟨q, hq, rfl⟩ := List.mem_map.mp hx
  rw [queryVecQ, tfVecQ] at hq
  obtain ⟨v, hv, rfl⟩ := List.mem_map.mp hq
  have hcount : (tokenize query).count v = 0 := by
    rw [List.count_eq_zero]
    intro hmem
    exact h v hmem hv
  simp [hcount]

theorem cosine_similarity_left_zero (v w : List ℝ) (hv : ∀ x ∈ v, x = 0) :
    cosine_similarity v w = 0 := by
  simp only [cosine_similarity]
  have hsum : (v.map (fun a => a * a)).sum = 0 := by
    apply List.sum_eq_zero
    intro x hx
    obtain ⟨a, ha, rfl⟩ := List.mem_map.mp hx
    rw [hv a ha]
    ring
  rw [hsum, Real.sqrt_zero]
  simp

/-- C8: similarity is total and non-negative.  A query entirely outside the
vocabulary (or empty) yields the zero query vector, the zero-norm guard
fires, and the similarity with every chunk row is exactly 0; and against
the TF-IDF rows of a built index every similarity is ≥ 0 because all TF-IDF
weights (and all query weights) are non-negative. -/
theorem C8_similarity_total_nonneg (chunks : List Str) (query : Str) :
    ((∀ w ∈ tokenize query, w ∉ (create_index chunks).vocab) →
      ∀ row ∈ (create_index chunks).tfidf,
        cosine_similarity (query_to_vector (create_index chunks) query) row = 0) ∧
    ∀ row ∈ (create_index chunks).tfidf,
      0 ≤ cosine_similarity (query_to_vector (create_index chunks) query) row := by
  constructor
  · intro h row _
    exact cosine_similarity_left_zero _ _ (query_to_vector_zero _ _ h)
  · intro row hrow
    apply cosine_similarity_nonneg
    · exact query_to_vector_nonneg _ _
    · intro x hx
      exact tfidf_entry_nonneg chunks row hrow x hx

/-! ### The search contract (C2) -/

theorem mem_insertDesc (x p : ℝ × Nat) : ∀ l, p ∈ insertDesc x l → p = x ∨ p ∈ l := by
  intro l
  induction l with
  | nil => intro h; simpa [insertDesc] using h
  | cons y ys ih =>
    intro h
    rw [insertDesc] at h
    split at h
    · rcases List.mem_cons.mp h with h | h
      · right; simp [h]
      · rcases ih h with h | h
        · left; exact h
        · right; simp [h]
    · rcases List.mem_cons.mp h with h | h
      · left; exact h
      · right; exact h

theorem mem_sortDesc (p : ℝ × Nat) : ∀ l, p ∈ sortDesc l → p ∈ l := by
  intro l
  induction l with
  | nil => intro h; simpa [sortDesc] using h
  | cons x xs ih =>
    intro h
    rw [sortDesc] at h
    rcases mem_insertDesc x p _ h with h | h
    · simp [h]
    · simp [ih h]

theorem simPairsFrom_mem (ss : List ℝ) : ∀ (i : Nat) (p : ℝ × Nat),
    p ∈ simPairsFrom ss i →
    i ≤ p.2 ∧ p.2 - i < ss.length ∧ p.1 = ss.getD (p.2 - i) 0 := by
  induction ss with
  | nil => intro i p h; simp [simPairsFrom] at h
  | cons s ss ih =>
    intro i p h
    rw [simPairsFrom] at h
    rcases List.mem_cons.mp h with h | h
    · subst h
      exact ⟨le_refl _, by simp, by simp⟩
    · obtain ⟨h1, h2, h3⟩ := ih (i + 1) p h
      refine ⟨by omega, by simp only [List.length_cons]; omega, ?_⟩
      have hk : p.2 - i = (p.2 - (i + 1)) + 1 := by omega
      rw [hk]
      simpa using h3

theorem simPairsFrom_idx_lt (ss : List ℝ) :
    ∀ i, List.Pairwise (fun a b => a.2 < b.2) (simPairsFrom ss i) := by
  induction ss with
  | nil => intro i; simp [simPairsFrom]
  | cons s ss ih =>
    intro i
    rw [simPairsFrom]
    refine List.Pairwise.cons ?_ (ih (i + 1))
    intro p hp
    have h := (simPairsFrom_mem ss (i + 1) p hp).1
    show i < p.2
    omega

theorem insertDesc_pairwise (x : ℝ × Nat) :
    ∀ l, List.Pairwise simR l → (∀ y ∈ l, x.2 < y.2) →
      List.Pairwise simR (insertDesc x l) := by
  intro l
  induction l with
  | nil => intro _ _; simp [insertDesc]
  | cons y ys ih =>
    intro hp hidx
    rcases List.pairwise_cons.mp hp with ⟨hy, hys⟩
    rw [insertDesc]
    split
    · rename_i hxy
      refine List.pairwise_cons.mpr ⟨?_, ih hys (fun z hz => hidx z (by simp [hz]))⟩
      intro p hp'
      rcases mem_insertDesc x p ys hp' with rfl | hmem
      · left; exact hxy
      · exact hy p hmem
    · rename_i hxy
      have hyx : y.1 ≤ x.1 := not_lt.mp hxy
      refine List.pairwise_cons.mpr ⟨?_, hp⟩
      intro p hp'
      rcases List.mem_cons.mp hp' with rfl | hmem
      · rcases lt_or_eq_of_le hyx with h | h
        · left; exact h
        · right; exact ⟨h.symm, hidx p (by simp)⟩
      · have hyp := hy p hmem
        rcases hyp with h | h
        · left; exact lt_of_lt_of_le h hyx
        · rcases lt_or_eq_of_le hyx with h2 | h2
          · left; rw [← h.1]; exact h2
          · right
            exact ⟨h2.symm.trans h.1, lt_trans (hidx y (by simp)) h.2⟩

theorem sortDesc_pairwise : ∀ l, List.Pairwise (fun a b => a.2 < b.2) l →
    List.Pairwise simR (sortDesc l) := by
  intro l
  induction l with
  | nil => intro _; simp [sortDesc]
  | cons x xs ih =>
    intro hp
    rcases List.pairwise_cons.mp hp with ⟨hx, hxs⟩
    rw [sortDesc]
    apply insertDesc_pairwise
    · exact ih hxs
    · intro y hy
      exact hx y (mem_sortDesc y xs hy)

theorem getD_map_cosine (v : List ℝ) : ∀ (l : List (List ℝ)) (i : Nat),
    (l.map (cosine_similarity v)).getD i 0 = cosine_similarity v (l.getD i []) := by
  intro l
  induction l with
  | nil => intro i; simp [cosine_similarity_nil]
  | cons r rs ih =>
    intro i
    cases i with
    | zero => simp
    | succ n => simpa using ih n

/-- Every pair of the sorted similarity list carries the similarity of its
own index. -/
theorem sorted_mem_fst (st : EmbedderState) (query : Str) :
    ∀ p ∈ sortDesc (simPairs st query), p.1 = simOf st query p.2 := by
  intro p hp
  have hmem := mem_sortDesc p _ hp
  rw [simPairs] at hmem
  obtain ⟨h1, h2, h3⟩ := simPairsFrom_mem _ 0 p hmem
  rw [h3, Nat.sub_zero, getD_map_cosine]
  rfl

/-- The source's generator-expression lookup returns the chunk's own
similarity for every index occurring in the sorted list. -/
theorem lookupSim_sorted_eq (st : EmbedderState) (query : Str) (idx : Nat)
    (hidx : ∃ p ∈ sortDesc (simPairs st query), p.2 = idx) :
    lookupSim (sortDesc (simPairs st query)) idx = simOf st query idx := by
  obtain ⟨p0, hp0, hpi⟩ := hidx
  have hsome : (List.find? (fun p => p.2 == idx) (sortDesc (simPairs st query))).isSome := by
    rw [List.find?_isSome]
    exact ⟨p0, hp0, by simpa using hpi⟩
  obtain ⟨p, hfind⟩ := Option.isSome_iff_exists.mp hsome
  have hmem := List.mem_of_find?_eq_some hfind
  have hpred : p.2 = idx := by simpa using List.find?_some hfind
  rw [lookupSim, hfind]
  simp only [Option.map_some', Option.getD_some]
  rw [sorted_mem_fst st query p hmem, hpred]

theorem collectChunks_eq_map (st : EmbedderState) (sorted : List (ℝ × Nat)) :
    ∀ l, collectChunks st sorted l =
      (collectIdx sorted l).map (fun i => st.chunks.getD i []) := by
  intro l
  induction l with
  | nil => simp [collectChunks, collectIdx]
  | cons idx rest ih =>
    rw [collectChunks, collectIdx]
    split
    · rw [List.map_cons, ← ih]
    · exact ih

theorem collectIdx_sublist (sorted : List (ℝ × Nat)) :
    ∀ l, List.Sublist (collectIdx sorted l) l := by
  intro l
  induction l with
  | nil => simp [collectIdx]
  | cons idx rest ih =>
    rw [collectIdx]
    split
    · exact ih.cons₂ idx
    · exact ih.cons idx

theorem collectIdx_mem (sorted : List (ℝ × Nat)) :
    ∀ l i, i ∈ collectIdx sorted l → i ∈ l ∧ (1 : ℝ) / 10 < lookupSim sorted i := by
  intro l
  induction l with
  | nil => intro i h; simp [collectIdx] at h
  | cons idx rest ih =>
    intro i h
    rw [collectIdx] at h
    split at h
    · rename_i hcond
      rcases List.mem_cons.mp h with rfl | hmem
      · exact ⟨by simp, hcond⟩
      · obtain ⟨h1, h2⟩ := ih i hmem
        exact ⟨by simp [h1], h2⟩
    · obtain ⟨h1, h2⟩ := ih i h
      exact ⟨by simp [h1], h2⟩

/-- C2: the search returns exactly the chunk texts of its selected indices;
at most `top_k` of them; every selected index has similarity strictly above
the 0.1 threshold (so chunks at or below it — possibly all of them — are
never returned); and the selection is ordered by strictly descending
similarity with ties in ascending original chunk order. -/
theorem C2_search_topk_threshold_ordering (st : EmbedderState) (query : Str) (topK : Nat) :
    search_similar_chunks st query topK =
      (searchSelected st query topK).map (fun i => st.chunks.getD i []) ∧
    (search_similar_chunks st query topK).length ≤ topK ∧
    (∀ i ∈ searchSelected st query topK, (1 : ℝ) / 10 < simOf st query i) ∧
    List.Pairwise
      (fun i j => simOf st query j < simOf st query i ∨
        (simOf st query i = simOf st query j ∧ i < j))
      (searchSelected st query topK) := by
  have hmapEq : search_similar_chunks st query topK =
      (searchSelected st query topK).map (fun i => st.chunks.getD i []) := by
    simp only [search_similar_chunks, searchSelected]
    exact collectChunks_eq_map st _ _
  refine ⟨hmapEq, ?_, ?_, ?_⟩
  · rw [hmapEq, List.length_map]
    simp only [searchSelected]
    calc (collectIdx (sortDesc (simPairs st query))
          (((sortDesc (simPairs st query)).take topK).map (fun p => p.2))).length
        ≤ (((sortDesc (simPairs st query)).take topK).map (fun p => p.2)).length :=
          (collectIdx_sublist _ _).length_le
      _ = ((sortDesc (simPairs st query)).take topK).length := List.length_map _ _
      _ ≤ topK := List.length_take_le _ _
  · intro i hi
    simp only [searchSelected] at hi
    obtain ⟨hin, hth⟩ := collectIdx_mem _ _ i hi
    have hex : ∃ p ∈ sortDesc (simPairs st query), p.2 = i := by
      obtain ⟨p, hp, hpe⟩ := List.mem_map.mp hin
      exact ⟨p, List.mem_of_mem_take hp, hpe⟩
    rw [← lookupSim_sorted_eq st query i hex]
    exact hth
  · simp only [searchSelected]
    apply List.Pairwise.sublist (collectIdx_sublist _ _)
    rw [List.pairwise_map]
    have hR : List.Pairwise simR (sortDesc (simPairs st query)) := by
      apply sortDesc_pairwise
      rw [simPairs]
      exact simPairsFrom_idx_lt _ 0
    have hRt : List.Pairwise simR ((sortDesc (simPairs st query)).take topK) :=
      hR.sublist (List.take_sublist _ _)
    refine List.Pairwise.imp_of_mem ?_ hRt
    intro a b ha hb hab
    have hfa := sorted_mem_fst st query a (List.mem_of_mem_take ha)
    have hfb := sorted_mem_fst st query b (List.mem_of_mem_take hb)
    rcases hab with h | h
    · left; rw [← hfa, ← hfb]; exact h
    · right; exact ⟨by rw [← hfa, ← hfb]; exact h.1, h.2⟩

/-! ### Cosine similarity bounds (for C5) -/

theorem zipWith_mul_sum_eq_range (v : List ℝ) :
    ∀ w : List ℝ, v.length = w.length →
      (List.zipWith (· * ·) v w).sum =
        ∑ i in Finset.range v.length, v.getD i 0 * w.getD i 0 := by
  induction v with
  | nil => intro w _; simp
  | cons a as ih =>
    intro w hlen
    cases w with
    | nil => simp at hlen
    | cons b bs =>
      simp only [List.zipWith_cons_cons, List.sum_cons, List.length_cons]
      rw [Finset.sum_range_succ']
      simp only [List.getD_cons_succ, List.getD_cons_zero]
      rw [ih bs (by simpa using hlen)]
      ring

theorem map_sq_sum_eq_range (v : List ℝ) :
    (v.map (fun a => a * a)).sum = ∑ i in Finset.range v.length, (v.getD i 0) ^ 2 := by
  induction v with
  | nil => simp
  | cons a as ih =>
    simp only [List.map_cons, List.sum_cons, List.length_cons]
    rw [Finset.sum_range_succ']
    simp only [List.getD_cons_succ, List.getD_cons_zero]
    rw [ih]
    ring

theorem map_sq_sum_nonneg (v : List ℝ) : 0 ≤ (v.map (fun a => a * a)).sum := by
  apply List.sum_nonneg
  intro x hx
  obtain ⟨a, _, rfl⟩ := List.mem_map.mp hx
  exact mul_self_nonneg a

/-- Cauchy–Schwarz for equal-length real lists. -/
theorem list_cauchy_schwarz (v w : List ℝ) (hlen : v.length = w.length) :
    ((List.zipWith (· * ·) v w).sum) ^ 2 ≤
      (v.map (fun a => a * a)).sum * (w.map (fun b => b * b)).sum := by
  rw [zipWith_mul_sum_eq_range v w hlen, map_sq_sum_eq_range v, map_sq_sum_eq_range w, hlen]
  exact Finset.sum_mul_sq_le_sq_mul_sq (Finset.range w.length) _ _

/-- Cosine similarity of equal-length non-negative vectors is at most 1. -/
theorem cosine_le_one (v w : List ℝ) (hlen : v.length = w.length)
    (hv : ∀ x ∈ v, 0 ≤ x) (hw : ∀ x ∈ w, 0 ≤ x) : cosine_similarity v w ≤ 1 := by
  simp only [cosine_similarity]
  split
  · norm_num
  · rename_i hguard
    push_neg at hguard
    have h1 : 0 < Real.sqrt ((v.map (fun a => a * a)).sum) :=
      lt_of_le_of_ne (Real.sqrt_nonneg _) (Ne.symm hguard.1)
    have h2 : 0 < Real.sqrt ((w.map (fun b => b * b)).sum) :=
      lt_of_le_of_ne (Real.sqrt_nonneg _) (Ne.symm hguard.2)
    rw [div_le_one (by positivity)]
    have hdot : 0 ≤ (List.zipWith (· * ·) v w).sum := zipWith_mul_sum_nonneg v w hv hw
    calc (List.zipWith (· * ·) v w).sum
        = Real.sqrt (((List.zipWith (· * ·) v w).sum) ^ 2) := (Real.sqrt_sq hdot).symm
      _ ≤ Real.sqrt ((v.map (fun a => a * a)).sum * (w.map (fun b => b * b)).sum) :=
          Real.sqrt_le_sqrt (list_cauchy_schwarz v w hlen)
      _ = Real.sqrt ((v.map (fun a => a * a)).sum) * Real.sqrt ((w.map (fun b => b * b)).sum) :=
          Real.sqrt_mul (map_sq_sum_nonneg v) _
      _ ≤ _ := le_refl _

theorem zipWith_mul_self_eq_map_sq (v : List ℝ) :
    (List.zipWith (· * ·) v v).sum = (v.map (fun a => a * a)).sum := by
  induction v with
  | nil => rfl
  | cons a as ih => simp only [List.zipWith_cons_cons, List.map_cons, List.sum_cons, ih]

/-- Cosine similarity of a non-degenerate vector with itself is exactly 1. -/
theorem cosine_self (v : List ℝ) (h : (v.map (fun a => a * a)).sum ≠ 0) :
    cosine_similarity v v = 1 := by
  have hpos : 0 < (v.map (fun a => a * a)).sum :=
    lt_of_le_of_ne (map_sq_sum_nonneg v) (Ne.symm h)
  have hs : Real.sqrt ((v.map (fun a => a * a)).sum) ≠ 0 := by
    rw [ne_eq, Real.sqrt_eq_zero (map_sq_sum_nonneg v)]
    exact h
  simp only [cosine_similarity]
  rw [if_neg (by simp [hs]), zipWith_mul_self_eq_map_sq,
    Real.mul_self_sqrt (map_sq_sum_nonneg v)]
  exact div_self h

theorem cosine_norm1_zero (v w : List ℝ) (h : (v.map (fun a => a * a)).sum = 0) :
    cosine_similarity v w = 0 := by
  simp only [cosine_similarity]
  rw [h, Real.sqrt_zero]
  simp

theorem cosine_norm2_zero (v w : List ℝ) (h : (w.map (fun b => b * b)).sum = 0) :
    cosine_similarity v w = 0 := by
  simp only [cosine_similarity]
  rw [h, Real.sqrt_zero]
  simp

theorem zipWith_mul_map_smul (κ : ℝ) (v : List ℝ) :
    ∀ w : List ℝ, (List.zipWith (· * ·) v (w.map (fun x => x * κ))).sum =
      κ * (List.zipWith (· * ·) v w).sum := by
  induction v with
  | nil => intro w; simp
  | cons a as ih =>
    intro w
    cases w with
    | nil => simp
    | cons b bs =>
      simp only [List.map_cons, List.zipWith_cons_cons, List.sum_cons, ih bs]
      ring

theorem map_sq_map_smul (κ : ℝ) (w : List ℝ) :
    ((w.map (fun x => x * κ)).map (fun b => b * b)).sum =
      κ ^ 2 * (w.map (fun b => b * b)).sum := by
  induction w with
  | nil => simp
  | cons b bs ih =>
    simp only [List.map_cons, List.sum_cons, ih]
    ring

/-- Scaling the second vector by a positive constant leaves cosine
similarity unchanged. -/
theorem cosine_smul_right (v w : List ℝ) (κ : ℝ) (hκ : 0 < κ) :
    cosine_similarity v (w.map (fun x => x * κ)) = cosine_similarity v w := by
  simp only [cosine_similarity]
  rw [zipWith_mul_map_smul, map_sq_map_smul]
  have hsq : Real.sqrt (κ ^ 2 * (w.map (fun b => b * b)).sum) =
      κ * Real.sqrt ((w.map (fun b => b * b)).sum) := by
    rw [Real.sqrt_mul (sq_nonneg κ), Real.sqrt_sq hκ.le]
  rw [hsq]
  by_cases h1 : Real.sqrt ((v.map (fun a => a * a)).sum) = 0
  · rw [if_pos (Or.inl h1), if_pos (Or.inl h1)]
  · by_cases h2 : Real.sqrt ((w.map (fun b => b * b)).sum) = 0
    · rw [if_pos (Or.inr h2), if_pos (by rw [h2]; simp)]
    · rw [if_neg (by push_neg; exact ⟨h1, by positivity⟩), if_neg (by push_neg; exact ⟨h1, h2⟩)]
      field_simp
      ring

/-! ### Vocabulary and row structure under uniform document frequency -/

theorem mem_insertWord (w p : Str) : ∀ l, p ∈ insertWord w l → p = w ∨ p ∈ l := by
  intro l
  induction l with
  | nil => intro h; simpa [insertWord] using h
  | cons v vs ih =>
    intro h
    rw [insertWord] at h
    split at h
    · rcases List.mem_cons.mp h with h | h
      · right; simp [h]
      · rcases ih h with h | h
        · left; exact h
        · right; simp [h]
    · rcases List.mem_cons.mp h with h | h
      · left; exact h
      · right; exact h

theorem mem_sortWords (p : Str) : ∀ l, p ∈ sortWords l → p ∈ l := by
  intro l
  induction l with
  | nil => intro h; simpa [sortWords] using h
  | cons x xs ih =>
    intro h
    rw [sortWords] at h
    rcases mem_insertWord x p _ h with h | h
    · simp [h]
    · simp [ih h]

/-- Every vocabulary term occurs in at least one chunk's token list. -/
theorem vocab_df_pos (chunks : List Str) (v : Str) (hv : v ∈ build_vocabulary chunks) :
    0 < dfCount (chunks.map tokenize) v := by
  have h1 : v ∈ ((chunks.map tokenize).join).dedup := mem_sortWords v _ hv
  have h2 : v ∈ (chunks.map tokenize).join := List.mem_dedup.mp h1
  obtain ⟨ws, hws, hvws⟩ := List.mem_join.mp h2
  rw [dfCount, List.countP_pos]
  exact ⟨ws, hws, by simpa using hvws⟩

theorem getD_map_lt {α β : Type} (f : α → β) :
    ∀ (l : List α) (j : Nat), j < l.length → ∀ (d₁ : β) (d₂ : α),
      (l.map f).getD j d₁ = f (l.getD j d₂) := by
  intro l
  induction l with
  | nil => intro j hj; simp at hj
  | cons a as ih =>
    intro j hj d₁ d₂
    cases j with
    | zero => simp
    | succ n =>
      simp only [List.map_cons, List.getD_cons_succ]
      exact ih n (by simpa using hj) d₁ d₂

theorem map_snd_zip_fun {α β γ : Type} (g : β → γ) :
    ∀ (l₁ : List α) (l₂ : List β), l₁.length = l₂.length →
      (l₁.zip l₂).map (fun p => g p.2) = l₂.map g := by
  intro l₁
  induction l₁ with
  | nil => intro l₂ h; cases l₂ <;> simp_all
  | cons a as ih =>
    intro l₂ h
    cases l₂ with
    | nil => simp at h
    | cons b bs =>
      simp only [List.zip_cons_cons, List.map_cons]
      rw [ih bs (by simpa using h)]

theorem tfVecQ_length (ws : List Str) (vocab : List Str) :
    (tfVecQ ws vocab).length = vocab.length := by
  simp [tfVecQ]

/-- Under a uniform document frequency `d`, every TF-IDF row is the chunk's
raw TF vector scaled by the one common IDF factor. -/
theorem tfidf_row_uniform (chunks : List Str) (d : Nat)
    (hd : ∀ v ∈ build_vocabulary chunks, dfCount (chunks.map tokenize) v = d)
    (j : Nat) (hj : j < chunks.length) :
    (tfidfMatrix chunks).getD j [] =
      (tfVecQ (tokenize (chunks.getD j [])) (build_vocabulary chunks)).map
        (fun q : ℚ => (q : ℝ) *
          (if 0 < d then Real.log ((chunks.length : ℝ) / (d : ℝ)) else 1)) := by
  simp only [tfidfMatrix]
  rw [getD_map_lt _ (chunks.map tokenize) j (by simpa using hj) [] []]
  rw [getD_map_lt tokenize chunks j hj [] []]
  have hcongr : List.map
      (fun p : Str × ℚ =>
        if 0 < dfCount (chunks.map tokenize) p.1 then
          (p.2 : ℝ) * Real.log ((chunks.length : ℝ) / (dfCount (chunks.map tokenize) p.1 : ℝ))
        else (p.2 : ℝ))
      ((build_vocabulary chunks).zip
        (tfVecQ (tokenize (chunks.getD j [])) (build_vocabulary chunks))) =
    List.map
      (fun p : Str × ℚ => (p.2 : ℝ) *
        (if 0 < d then Real.log ((chunks.length : ℝ) / (d : ℝ)) else 1))
      ((build_vocabulary chunks).zip
        (tfVecQ (tokenize (chunks.getD j [])) (build_vocabulary chunks))) := by
    apply List.map_congr_left
    intro p hp
    have hv : p.1 ∈ build_vocabulary chunks := (List.mem_zip hp).1
    rw [hd p.1 hv]
    by_cases h0 : 0 < d
    · rw [if_pos h0, if_pos h0]
    · rw [if_neg h0, if_neg h0, mul_one]
  rw [hcongr]
  exact map_snd_zip_fun
    (fun q : ℚ => (q : ℝ) * (if 0 < d then Real.log ((chunks.length : ℝ) / (d : ℝ)) else 1))
    _ _ (tfVecQ_length _ _).symm

theorem tfidfMatrix_length (chunks : List Str) :
    (tfidfMatrix chunks).length = chunks.length := by
  simp [tfidfMatrix]

theorem map_cast_smul (tf : List ℚ) (κ : ℝ) :
    tf.map (fun q : ℚ => (q : ℝ) * κ) =
      (tf.map (fun q : ℚ => (q : ℝ))).map (fun x => x * κ) := by
  rw [List.map_map]
  rfl

/-- C5 amended: when every vocabulary term has the same document frequency
(uniform IDF scaling), no chunk's similarity to a query that is verbatim one
chunk's text strictly exceeds that chunk's own similarity — the verbatim
chunk is the top or tied-top scorer.  (The counterexample below shows the
unamended claim fails: query vectors carry raw TF while rows carry TF·IDF,
so under non-uniform document frequencies another chunk can strictly
outrank the verbatim one.) -/
theorem C5_amended_uniform_df_top_or_tied (chunks : List Str) (c j d : Nat)
    (hc : c < chunks.length)
    (hd : ∀ v ∈ build_vocabulary chunks, dfCount (chunks.map tokenize) v = d) :
    simOf (create_index chunks) (chunks.getD c []) j ≤
      simOf (create_index chunks) (chunks.getD c []) c := by
  have hqv : query_to_vector (create_index chunks) (chunks.getD c []) =
      (tfVecQ (tokenize (chunks.getD c [])) (build_vocabulary chunks)).map
        (fun q : ℚ => (q : ℝ)) := rfl
  have htf : (create_index chunks).tfidf = tfidfMatrix chunks := rfl
  simp only [simOf, htf, hqv]
  by_cases hvnil : build_vocabulary chunks = []
  · have hq0 : (tfVecQ (tokenize (chunks.getD c [])) (build_vocabulary chunks)).map
        (fun q : ℚ => (q : ℝ)) = [] := by
      rw [hvnil]; rfl
    rw [hq0]
    have hz : ∀ w : List ℝ, cosine_similarity [] w = 0 := fun w =>
      cosine_norm1_zero [] w (by simp)
    rw [hz, hz]
  · obtain ⟨v₀, hv₀⟩ := List.exists_mem_of_ne_nil _ hvnil
    have hdpos : 0 < d := by
      rw [← hd v₀ hv₀]
      exact vocab_df_pos chunks v₀ hv₀
    have hdle : d ≤ chunks.length := by
      rw [← hd v₀ hv₀]
      calc dfCount (chunks.map tokenize) v₀ ≤ (chunks.map tokenize).length :=
            List.countP_le_length _
        _ = chunks.length := List.length_map _ _
    have hκnn : 0 ≤ (if 0 < d then Real.log ((chunks.length : ℝ) / (d : ℝ)) else 1) := by
      rw [if_pos hdpos]
      apply Real.log_nonneg
      rw [le_div_iff (by exact_mod_cast hdpos), one_mul]
      exact_mod_cast hdle
    set κ := (if 0 < d then Real.log ((chunks.length : ℝ) / (d : ℝ)) else 1) with hκdef
    have hrow : ∀ i, i < chunks.length →
        (tfidfMatrix chunks).getD i [] =
          ((tfVecQ (tokenize (chunks.getD i [])) (build_vocabulary chunks)).map
            (fun q : ℚ => (q : ℝ))).map (fun x => x * κ) := by
      intro i hi
      rw [tfidf_row_uniform chunks d hd i hi, ← hκdef, map_cast_smul]
    rcases eq_or_lt_of_le hκnn with hκ0 | hκpos
    · -- zero scaling: every row in range is the zero vector, all similarities are 0
      have hzero : ∀ i, i < chunks.length →
          cosine_similarity
            ((tfVecQ (tokenize (chunks.getD c [])) (build_vocabulary chunks)).map
              (fun q : ℚ => (q : ℝ)))
            ((tfidfMatrix chunks).getD i []) = 0 := by
        intro i hi
        rw [hrow i hi]
        apply cosine_norm2_zero
        rw [map_sq_map_smul, ← hκ0]
        ring
      rw [hzero c hc]
      by_cases hj : j < chunks.length
      · rw [hzero j hj]
      · have hjrow : (tfidfMatrix chunks).getD j [] = [] :=
          List.getD_eq_default _ _ (by rw [tfidfMatrix_length]; omega)
        rw [hjrow, cosine_similarity_nil]
    · -- positive scaling: similarities are plain-TF cosines, maximal at the chunk itself
      have hsimc : cosine_similarity
          ((tfVecQ (tokenize (chunks.getD c [])) (build_vocabulary chunks)).map
            (fun q : ℚ => (q : ℝ)))
          ((tfidfMatrix chunks).getD c []) =
        cosine_similarity
          ((tfVecQ (tokenize (chunks.getD c [])) (build_vocabulary chunks)).map
            (fun q : ℚ => (q : ℝ)))
          ((tfVecQ (tokenize (chunks.getD c [])) (build_vocabulary chunks)).map
            (fun q : ℚ => (q : ℝ))) := by
        rw [hrow c hc, cosine_smul_right _ _ κ hκpos]
      have hqnn : ∀ x ∈ (tfVecQ (tokenize (chunks.getD c [])) (build_vocabulary chunks)).map
          (fun q : ℚ => (q : ℝ)), 0 ≤ x := by
        intro x hx
        obtain ⟨q, hq, rfl⟩ := List.mem_map.mp hx
        exact_mod_cast tfVecQ_nonneg _ _ q hq
      by_cases hj : j < chunks.length
      · rw [hrow j hj, cosine_smul_right _ _ κ hκpos, hsimc]
        by_cases hqz : (((tfVecQ (tokenize (chunks.getD c [])) (build_vocabulary chunks)).map
            (fun q : ℚ => (q : ℝ))).map (fun a => a * a)).sum = 0
        · rw [cosine_norm1_zero _ _ hqz, cosine_norm1_zero _ _ hqz]
        · rw [cosine_self _ hqz]
          apply cosine_le_one
          · simp [tfVecQ]
          · exact hqnn
          · intro x hx
            obtain ⟨q, hq, rfl⟩ := List.mem_map.mp hx
            exact_mod_cast tfVecQ_nonneg _ _ q hq
      · have hjrow : (tfidfMatrix chunks).getD j [] = [] :=
          List.getD_eq_default _ _ (by rw [tfidfMatrix_length]; omega)
        rw [hjrow, cosine_similarity_nil, hsimc]
        apply cosine_similarity_nonneg _ _ hqnn hqnn

/-- Witness for the amended C5: two one-word chunks, each term in exactly one
document (uniform df = 1); chunk 1's similarity to chunk 0's verbatim text
does not exceed chunk 0's own similarity. -/
theorem C5_amended_uniform_witness :
    simOf (create_index ["aaa".data, "bbb".data]) (["aaa".data, "bbb".data].getD 0 []) 1 ≤
      simOf (create_index ["aaa".data, "bbb".data]) (["aaa".data, "bbb".data].getD 0 []) 0 :=
  C5_amended_uniform_df_top_or_tied ["aaa".data, "bbb".data] 0 1 1 (by norm_num) (by decide)

/-! ### Evaluating the search pipeline on the concrete corpus `chunksC5` -/

theorem cosine4_eval (a1 a2 a3 a4 b1 b2 b3 b4 : ℝ)
    (hna : 0 < a1*a1 + (a2*a2 + (a3*a3 + a4*a4)))
    (hnb : 0 < b1*b1 + (b2*b2 + (b3*b3 + b4*b4))) :
    cosine_similarity [a1, a2, a3, a4] [b1, b2, b3, b4] =
      (a1*b1 + (a2*b2 + (a3*b3 + a4*b4))) /
        (Real.sqrt (a1*a1 + (a2*a2 + (a3*a3 + a4*a4))) *
         Real.sqrt (b1*b1 + (b2*b2 + (b3*b3 + b4*b4)))) := by
  simp only [cosine_similarity, List.zipWith, List.map, List.sum_cons, List.sum_nil,
    add_zero]
  rw [if_neg (not_or.mpr ⟨ne_of_gt (Real.sqrt_pos.mpr hna),
    ne_of_gt (Real.sqrt_pos.mpr hnb)⟩)]

theorem div_sqrt_mul_sqrt (d x y : ℝ) (hx : 0 ≤ x) :
    d / (Real.sqrt x * Real.sqrt y) = d / Real.sqrt (x * y) := by
  rw [Real.sqrt_mul hx]

/-- Comparison of two nonnegative-over-√ quotients by their cross-multiplied
squares. -/
theorem div_sqrt_lt (a b x y : ℝ) (ha : 0 ≤ a) (hb : 0 ≤ b) (hx : 0 < x)
    (hy : 0 < y) (h : a^2 * y < b^2 * x) :
    a / Real.sqrt x < b / Real.sqrt y := by
  have hax : a / Real.sqrt x = Real.sqrt (a^2 / x) := by
    rw [Real.sqrt_div (sq_nonneg a), Real.sqrt_sq ha]
  have hby : b / Real.sqrt y = Real.sqrt (b^2 / y) := by
    rw [Real.sqrt_div (sq_nonneg b), Real.sqrt_sq hb]
  rw [hax, hby]
  apply Real.sqrt_lt_sqrt (by positivity)
  rw [div_lt_div_iff hx hy]
  exact h

theorem getD_zero {α : Type} (a : α) (l : List α) (d : α) :
    (a :: l).getD 0 d = a := rfl

theorem getD_one {α : Type} (a b : α) (l : List α) (d : α) :
    (a :: b :: l).getD 1 d = b := rfl

theorem vocabC5 : build_vocabulary chunksC5 =
    ["qqq".data, "rrr".data, "sss".data, "ttt".data] := by decide

theorem wlsC5 : chunksC5.map tokenize =
    [["qqq".data, "qqq".data, "qqq".data, "rrr".data],
     ["qqq".data, "rrr".data],
     ["rrr".data, "sss".data], ["rrr".data, "sss".data],
     ["ttt".data], ["ttt".data], ["ttt".data], ["ttt".data]] := by decide

theorem lenC5 : chunksC5.length = 8 := by decide

theorem dfC5_q : dfCount
    [["qqq".data, "qqq".data, "qqq".data, "rrr".data],
     ["qqq".data, "rrr".data],
     ["rrr".data, "sss".data], ["rrr".data, "sss".data],
     ["ttt".data], ["ttt".data], ["ttt".data], ["ttt".data]] "qqq".data = 2 := by decide

theorem dfC5_r : dfCount
    [["qqq".data, "qqq".data, "qqq".data, "rrr".data],
     ["qqq".data, "rrr".data],
     ["rrr".data, "sss".data], ["rrr".data, "sss".data],
     ["ttt".data], ["ttt".data], ["ttt".data], ["ttt".data]] "rrr".data = 4 := by decide

theorem dfC5_s : dfCount
    [["qqq".data, "qqq".data, "qqq".data, "rrr".data],
     ["qqq".data, "rrr".data],
     ["rrr".data, "sss".data], ["rrr".data, "sss".data],
     ["ttt".data], ["ttt".data], ["ttt".data], ["ttt".data]] "sss".data = 2 := by decide

theorem dfC5_t : dfCount
    [["qqq".data, "qqq".data, "qqq".data, "rrr".data],
     ["qqq".data, "rrr".data],
     ["rrr".data, "sss".data], ["rrr".data, "sss".data],
     ["ttt".data], ["ttt".data], ["ttt".data], ["ttt".data]] "ttt".data = 4 := by decide

theorem tfC5_0 : tfVecQ ["qqq".data, "qqq".data, "qqq".data, "rrr".data]
    ["qqq".data, "rrr".data, "sss".data, "ttt".data] = [3/4, 1/4, 0, 0] := by
  have c1 : (["qqq".data, "qqq".data, "qqq".data, "rrr".data]).count "qqq".data = 3 := by
    decide
  have c2 : (["qqq".data, "qqq".data, "qqq".data, "rrr".data]).count "rrr".data = 1 := by
    decide
  have c3 : (["qqq".data, "qqq".data, "qqq".data, "rrr".data]).count "sss".data = 0 := by
    decide
  have c4 : (["qqq".data, "qqq".data, "qqq".data, "rrr".data]).count "ttt".data = 0 := by
    decide
  simp only [tfVecQ, List.map_cons, List.map_nil, List.length_cons, List.length_nil]
  rw [c1, c2, c3, c4]
  norm_num

theorem tfC5_1 : tfVecQ ["qqq".data, "rrr".data]
    ["qqq".data, "rrr".data, "sss".data, "ttt".data] = [1/2, 1/2, 0, 0] := by
  have c1 : (["qqq".data, "rrr".data]).count "qqq".data = 1 := by decide
  have c2 : (["qqq".data, "rrr".data]).count "rrr".data = 1 := by decide
  have c3 : (["qqq".data, "rrr".data]).count "sss".data = 0 := by decide
  have c4 : (["qqq".data, "rrr".data]).count "ttt".data = 0 := by decide
  simp only [tfVecQ, List.map_cons, List.map_nil, List.length_cons, List.length_nil]
  rw [c1, c2, c3, c4]
  norm_num

theorem tfC5_2 : tfVecQ ["rrr".data, "sss".data]
    ["qqq".data, "rrr".data, "sss".data, "ttt".data] = [0, 1/2, 1/2, 0] := by
  have c1 : (["rrr".data, "sss".data]).count "qqq".data = 0 := by decide
  have c2 : (["rrr".data, "sss".data]).count "rrr".data = 1 := by decide
  have c3 : (["rrr".data, "sss".data]).count "sss".data = 1 := by decide
  have c4 : (["rrr".data, "sss".data]).count "ttt".data = 0 := by decide
  simp only [tfVecQ, List.map_cons, List.map_nil, List.length_cons, List.length_nil]
  rw [c1, c2, c3, c4]
  norm_num

theorem tfC5_4 : tfVecQ ["ttt".data]
    ["qqq".data, "rrr".data, "sss".data, "ttt".data] = [0, 0, 0, 1] := by
  have c1 : (["ttt".data]).count "qqq".data = 0 := by decide
  have c2 : (["ttt".data]).count "rrr".data = 0 := by decide
  have c3 : (["ttt".data]).count "sss".data = 0 := by decide
  have c4 : (["ttt".data]).count "ttt".data = 1 := by decide
  simp only [tfVecQ, List.map_cons, List.map_nil, List.length_cons, List.length_nil]
  rw [c1, c2, c3, c4]
  norm_num

/-- The TF-IDF matrix of the concrete corpus: every row is a raw-TF-derived
vector scaled entrywise by `log 2`-multiples — but with non-uniform column
factors (columns qqq and sss got `log 4`, columns rrr and ttt `log 2`),
already folded into the row literals here. -/
theorem matC5 : tfidfMatrix chunksC5 =
    [[(3:ℝ)/2, 1/4, 0, 0].map (fun x => x * Real.log 2),
     [(1:ℝ), 1/2, 0, 0].map (fun x => x * Real.log 2),
     [(0:ℝ), 1/2, 1, 0].map (fun x => x * Real.log 2),
     [(0:ℝ), 1/2, 1, 0].map (fun x => x * Real.log 2),
     [(0:ℝ), 0, 0, 1].map (fun x => x * Real.log 2),
     [(0:ℝ), 0, 0, 1].map (fun x => x * Real.log 2),
     [(0:ℝ), 0, 0, 1].map (fun x => x * Real.log 2),
     [(0:ℝ), 0, 0, 1].map (fun x => x * Real.log 2)] := by
  have hlog4 : Real.log 4 = 2 * Real.log 2 := by
    rw [show (4:ℝ) = 2^2 by norm_num, Real.log_pow]
    norm_num
  simp only [tfidfMatrix]
  rw [wlsC5, vocabC5, lenC5]
  simp only [List.map_cons, List.map_nil]
  rw [tfC5_0, tfC5_1, tfC5_2, tfC5_4]
  simp only [List.zip_cons_cons, List.zip_nil_right, List.map_cons, List.map_nil]
  rw [dfC5_q, dfC5_r, dfC5_s, dfC5_t]
  norm_num [hlog4]
  ring_nf
  exact ⟨trivial, trivial⟩

/-- The query vector of `queryC5` against the index built on `chunksC5` is
chunk 0's raw TF vector (no IDF scaling). -/
theorem qvC5 : query_to_vector (create_index chunksC5) queryC5 =
    [(3:ℝ)/4, 1/4, 0, 0] := by
  have ht : tokenize queryC5 =
      ["qqq".data, "qqq".data, "qqq".data, "rrr".data] := by decide
  have h2 : query_to_vector (create_index chunksC5) queryC5 =
      (tfVecQ (tokenize queryC5) (build_vocabulary chunksC5)).map
        (fun q : ℚ => (q : ℝ)) := rfl
  rw [h2, ht, vocabC5, tfC5_0]
  norm_num

theorem cosqC5_0 : cosine_similarity [(3:ℝ)/4, 1/4, 0, 0]
    ([(3:ℝ)/2, 1/4, 0, 0].map (fun x => x * Real.log 2)) =
    (19:ℝ)/16 / Real.sqrt (185/128) := by
  rw [show ([(3:ℝ)/2, 1/4, 0, 0].map (fun x => x * Real.log 2)) =
      ([(3:ℝ)/2, 1/4, 0, 0].map (fun x => x * Real.log 2)) from rfl,
    cosine_smul_right _ _ _ (Real.log_pos (by norm_num))]
  rw [cosine4_eval _ _ _ _ _ _ _ _ (by norm_num) (by norm_num)]
  rw [div_sqrt_mul_sqrt _ _ _ (by norm_num)]
  norm_num

theorem cosqC5_1 : cosine_similarity [(3:ℝ)/4, 1/4, 0, 0]
    ([(1:ℝ), 1/2, 0, 0].map (fun x => x * Real.log 2)) =
    (7:ℝ)/8 / Real.sqrt (25/32) := by
  rw [cosine_smul_right _ _ _ (Real.log_pos (by norm_num))]
  rw [cosine4_eval _ _ _ _ _ _ _ _ (by norm_num) (by norm_num)]
  rw [div_sqrt_mul_sqrt _ _ _ (by norm_num)]
  norm_num

theorem cosqC5_2 : cosine_similarity [(3:ℝ)/4, 1/4, 0, 0]
    ([(0:ℝ), 1/2, 1, 0].map (fun x => x * Real.log 2)) =
    (1:ℝ)/8 / Real.sqrt (25/32) := by
  rw [cosine_smul_right _ _ _ (Real.log_pos (by norm_num))]
  rw [cosine4_eval _ _ _ _ _ _ _ _ (by norm_num) (by norm_num)]
  rw [div_sqrt_mul_sqrt _ _ _ (by norm_num)]
  norm_num

theorem cosqC5_4 : cosine_similarity [(3:ℝ)/4, 1/4, 0, 0]
    ([(0:ℝ), 0, 0, 1].map (fun x => x * Real.log 2)) = 0 := by
  rw [cosine_smul_right _ _ _ (Real.log_pos (by norm_num))]
  rw [cosine4_eval _ _ _ _ _ _ _ _ (by norm_num) (by norm_num)]
  norm_num

theorem simPairsC5 : simPairs (create_index chunksC5) queryC5 = pairsC5 := by
  have h : simPairs (create_index chunksC5) queryC5 =
      simPairsFrom ((tfidfMatrix chunksC5).map
        (cosine_similarity (query_to_vector (create_index chunksC5) queryC5))) 0 := rfl
  rw [h, matC5, qvC5]
  rw [List.map_cons, cosqC5_0, List.map_cons, cosqC5_1, List.map_cons, cosqC5_2,
    List.map_cons, cosqC5_2, List.map_cons, cosqC5_4, List.map_cons, cosqC5_4,
    List.map_cons, cosqC5_4, List.map_cons, cosqC5_4, List.map_nil]
  simp only [simPairsFrom, pairsC5]

/-- The three similarity values, ordered: the tied pair, the verbatim chunk,
the strict winner. -/
theorem simC5_lt_01 :
    (19:ℝ)/16 / Real.sqrt (185/128) < (7:ℝ)/8 / Real.sqrt (25/32) :=
  div_sqrt_lt _ _ _ _ (by norm_num) (by norm_num) (by norm_num) (by norm_num)
    (by norm_num)

theorem simC5_lt_21 :
    (1:ℝ)/8 / Real.sqrt (25/32) < (7:ℝ)/8 / Real.sqrt (25/32) :=
  div_sqrt_lt _ _ _ _ (by norm_num) (by norm_num) (by norm_num) (by norm_num)
    (by norm_num)

theorem simC5_lt_20 :
    (1:ℝ)/8 / Real.sqrt (25/32) < (19:ℝ)/16 / Real.sqrt (185/128) :=
  div_sqrt_lt _ _ _ _ (by norm_num) (by norm_num) (by norm_num) (by norm_num)
    (by norm_num)

theorem simC5_thr_2 : (1:ℝ)/10 < (1:ℝ)/8 / Real.sqrt (25/32) := by
  have h : (1:ℝ)/10 = (1:ℝ)/10 / Real.sqrt 1 := by
    rw [Real.sqrt_one, div_one]
  rw [h]
  exact div_sqrt_lt _ _ _ _ (by norm_num) (by norm_num) (by norm_num) (by norm_num)
    (by norm_num)

theorem sortedC5 : sortDesc pairsC5 = sortedC5pairs := by
  have e2 : ((1:ℝ)/8/Real.sqrt (25/32) < 0) = False :=
    eq_false (not_lt.mpr (by positivity))
  have e4 : ((7:ℝ)/8/Real.sqrt (25/32) < (1:ℝ)/8/Real.sqrt (25/32)) = False :=
    eq_false (not_lt.mpr simC5_lt_21.le)
  have e5 : ((19:ℝ)/16/Real.sqrt (185/128) < (7:ℝ)/8/Real.sqrt (25/32)) = True :=
    eq_true simC5_lt_01
  have e6 : ((19:ℝ)/16/Real.sqrt (185/128) < (1:ℝ)/8/Real.sqrt (25/32)) = False :=
    eq_false (not_lt.mpr simC5_lt_20.le)
  simp only [pairsC5, sortedC5pairs, sortDesc, insertDesc, lt_self_iff_false,
    e2, e4, e5, e6, if_true, if_false, ite_true, ite_false]

theorem searchSelectedC5 :
    searchSelected (create_index chunksC5) queryC5 5 = [1, 0, 2, 3] := by
  have h : searchSelected (create_index chunksC5) queryC5 5 =
      collectIdx (sortDesc (simPairs (create_index chunksC5) queryC5))
        (((sortDesc (simPairs (create_index chunksC5) queryC5)).take 5).map
          (fun p => p.2)) := rfl
  rw [h, simPairsC5, sortedC5]
  have htop : ((sortedC5pairs.take 5).map (fun p => p.2)) = [1, 0, 2, 3, 4] := rfl
  rw [htop]
  have c1 : ((1:ℝ)/10 < lookupSim sortedC5pairs 1) = True := by
    rw [show lookupSim sortedC5pairs 1 = (7:ℝ)/8/Real.sqrt (25/32) from rfl]
    exact eq_true (lt_trans simC5_thr_2 simC5_lt_21)
  have c0 : ((1:ℝ)/10 < lookupSim sortedC5pairs 0) = True := by
    rw [show lookupSim sortedC5pairs 0 = (19:ℝ)/16/Real.sqrt (185/128) from rfl]
    exact eq_true (lt_trans simC5_thr_2 simC5_lt_20)
  have c2 : ((1:ℝ)/10 < lookupSim sortedC5pairs 2) = True := by
    rw [show lookupSim sortedC5pairs 2 = (1:ℝ)/8/Real.sqrt (25/32) from rfl]
    exact eq_true simC5_thr_2
  have c3 : ((1:ℝ)/10 < lookupSim sortedC5pairs 3) = True := by
    rw [show lookupSim sortedC5pairs 3 = (1:ℝ)/8/Real.sqrt (25/32) from rfl]
    exact eq_true simC5_thr_2
  have c4 : ((1:ℝ)/10 < lookupSim sortedC5pairs 4) = False := by
    rw [show lookupSim sortedC5pairs 4 = 0 from rfl]
    exact eq_false (by norm_num)
  simp only [collectIdx, c0, c1, c2, c3, c4, if_true, if_false, ite_true, ite_false]

theorem simOfC5_0 : simOf (create_index chunksC5) queryC5 0 =
    (19:ℝ)/16 / Real.sqrt (185/128) := by
  have h : simOf (create_index chunksC5) queryC5 0 =
      cosine_similarity (query_to_vector (create_index chunksC5) queryC5)
        ((tfidfMatrix chunksC5).getD 0 []) := rfl
  rw [h, qvC5, matC5, getD_zero, cosqC5_0]

theorem simOfC5_1 : simOf (create_index chunksC5) queryC5 1 =
    (7:ℝ)/8 / Real.sqrt (25/32) := by
  have h : simOf (create_index chunksC5) queryC5 1 =
      cosine_similarity (query_to_vector (create_index chunksC5) queryC5)
        ((tfidfMatrix chunksC5).getD 1 []) := rfl
  rw [h, qvC5, matC5, getD_one, cosqC5_1]

/-- C5 counterexample: on the concrete 8-chunk corpus, the query equal
verbatim to chunk 0's text is NOT returned as the first result and is not
tied with it: chunk 1 (a different text) comes first with strictly larger
similarity.  The cause: the query vector is raw TF while matrix rows are
TF·IDF, and the corpus's document frequencies are non-uniform, so the
angle between chunk 0's row and the query is not zero while chunk 1's row
happens to align better. -/
theorem C5_counterexample_verbatim_not_top :
    queryC5 = chunksC5.getD 0 [] ∧
    (searchSelected (create_index chunksC5) queryC5 5).head? = some 1 ∧
    simOf (create_index chunksC5) queryC5 0 < simOf (create_index chunksC5) queryC5 1 ∧
    chunksC5.getD 1 [] ≠ chunksC5.getD 0 [] := by
  refine ⟨by decide, ?_, ?_, by decide⟩
  · rw [searchSelectedC5]
    rfl
  · rw [simOfC5_0, simOfC5_1]
    exact simC5_lt_01

/-! ### The per-question pipeline -/

/-- C10: whenever the (lowercased) answer contains "not available" or
"unable to", the formatting step replaces `source_clause` and `reasoning`
with the two fixed strings; consequently, for a question whose generation
exhausted all retries, the record the pipeline returns is the fallback
answer with those two fields replaced — not the §4.4.1 Fallback Response
verbatim. -/
theorem C10_unavailable_overrides_and_fallback_not_verbatim :
    (∀ answer source_clause reasoning : Str,
      (containsSub (pyLower answer) ("not available".data) = true ∨
        containsSub (pyLower answer) ("unable to".data) = true) →
      (format_response answer source_clause reasoning).source_clause =
        "No relevant clause found in the document.".data ∧
      (format_response answer source_clause reasoning).reasoning =
        "The requested information is not explicitly stated in the provided document.".data) ∧
    (∀ (st : EmbedderState) (call : Str → Nat → Option Str) (question pdfText : Str),
      (∀ p i, i < 3 → call p i = none) →
      run_question st call question pdfText =
        { answer := "Unable to process the question due to technical issues. Please try again.".data
          source_clause := "No relevant clause found in the document.".data
          reasoning := "The requested information is not explicitly stated in the provided document.".data } ∧
      run_question st call question pdfText ≠ create_fallback_response question) := by
  constructor
  · exact format_response_unavailable
  · intro st call question pdfText h
    have hgen : generate_answer call question (search_similar_chunks st question 5) pdfText =
        create_fallback_response question :=
      generate_answer_all_fail call question _ pdfText (fun i hi => h _ i hi)
    have hrun : run_question st call question pdfText =
        format_response
          ("Unable to process the question due to technical issues. Please try again.".data)
          ("No source clause available.".data)
          ("Technical error prevented document analysis.".data) := by
      simp only [run_question, hgen, create_fallback_response]
    have hfmt : format_response
        ("Unable to process the question due to technical issues. Please try again.".data)
        ("No source clause available.".data)
        ("Technical error prevented document analysis.".data) =
        { answer := "Unable to process the question due to technical issues. Please try again.".data
          source_clause := "No relevant clause found in the document.".data
          reasoning := "The requested information is not explicitly stated in the provided document.".data } := by
      decide
    refine ⟨by rw [hrun, hfmt], ?_⟩
    rw [hrun, hfmt]
    simp only [create_fallback_response]
    decide

/-- Spec §8 boundary scenario: `chunk_size = 300, overlap = 100` over a
1000-token document walks exactly the five windows
(0,300), (200,500), (400,700), (600,900), (800,1100) — matching
`⌈(1000 − 100) / 200⌉ = 5`. -/
theorem chunk_windows_boundary_scenario :
    chunkWindowsLoop 300 100 1000 6 0 [] =
      some [(0, 300), (200, 500), (400, 700), (600, 900), (800, 1100)] ∧
    (1000 - 100 + 199) / 200 = 5 := by
  constructor
  · rfl
  · norm_num

end HackRx
